import Mathlib

/-!
Verification of the scenario engine of the `ginom-mockup` backend
(`src/backend/src/server.js`) against its natural-language specification.

The development shallowly embeds the relevant JavaScript functions:

* numbers stored in the SQLite store are modelled as `Int` where the schema
  declares `INTEGER` (`performance_pct`, `tick_index`, `criticality`,
  `priority`) and as `Rat` where it declares `REAL` (`time_pct`,
  `target_value`, coordinates);
* JavaScript `Math.trunc` / `Math.ceil` / `Math.round` become `jsTrunc`,
  `Int.ceil` and `round` on `Rat`;
* in-memory `Map` / `Set` objects become association lists / membership
  lists, preserving insertion order exactly as the interpreter does;
* the pseudo-random draws of `randInt` are passed in explicitly as data.
-/

/-- Discrete asset status, as produced by `perfPctToStatus` in server.js. -/
inductive Status where
  | RECOVERED
  | DEGRADED
  | FAILED
deriving DecidableEq, Repr

/-- `clamp(n, a, b)` from server.js: `Math.max(a, Math.min(b, n))`. -/
def clamp (n a b : ℚ) : ℚ :=
  max a (min b n)

/-- JavaScript `Math.trunc` on a rational: rounding toward zero. -/
def jsTrunc (q : ℚ) : ℤ :=
  if q < 0 then ⌈q⌉ else ⌊q⌋

/-- `clampInt(n, lo, hi)` from server.js:
`Math.max(lo, Math.min(hi, Math.trunc(Number(n))))`. -/
def clampInt (n : ℚ) (lo hi : ℤ) : ℤ :=
  max lo (min hi (jsTrunc n))

/-- Integer clamp, used where the clamped quantity is already an integer. -/
def clampZ (n lo hi : ℤ) : ℤ :=
  max lo (min hi n)

/-- `perfPctToStatus(perfPct)` from server.js: the performance percentage is
clamped to `[0,100]`, then `>= 100 → RECOVERED`, `>= 50 → DEGRADED`,
otherwise `FAILED`. -/
def perfPctToStatus (perfPct : ℚ) : Status :=
  let p := clamp perfPct 0 100
  if 100 ≤ p then Status.RECOVERED
  else if 50 ≤ p then Status.DEGRADED
  else Status.FAILED

/-- `pctToTickIndex(timePct, totalTicks)` from server.js: clamp the rule's
`time_pct` into `[0,100]`, take `Math.ceil((p / 100) * totalTicks)` and clamp
the result into `[0, totalTicks - 1]`. -/
def pctToTickIndex (timePct : ℚ) (totalTicks : ℤ) : ℤ :=
  let p := max 0 (min 100 timePct)
  let idx := ⌈p / 100 * (totalTicks : ℚ)⌉
  max 0 (min (totalTicks - 1) idx)

/-! String helpers.  `String.toUpper`, `String.trim` and string comparison in
core Lean are not kernel-reducible, so we model the JavaScript operations
`toUpperCase`, `toLowerCase`, `trim` and `localeCompare` directly on the
character lists (code-point order for comparison). -/

/-- JavaScript `toUpperCase` (ASCII model). -/
def jsToUpper (s : String) : String :=
  ⟨s.data.map Char.toUpper⟩

/-- JavaScript `toLowerCase` (ASCII model). -/
def jsToLower (s : String) : String :=
  ⟨s.data.map Char.toLower⟩

/-- JavaScript `String.prototype.trim`. -/
def jsTrim (s : String) : String :=
  ⟨((s.data.dropWhile Char.isWhitespace).reverse.dropWhile Char.isWhitespace).reverse⟩

/-- Lexicographic code-point comparison, the model of `localeCompare`-based
sorting in `selectAssetsForRule`. -/
def charListLe : List Char → List Char → Bool
  | [], _ => true
  | _ :: _, [] => false
  | a :: as, b :: bs =>
    if a.toNat < b.toNat then true
    else if b.toNat < a.toNat then false
    else charListLe as bs

/-- `x` compares at most `y` in code-point order. -/
def jsStrLe (x y : String) : Bool :=
  charListLe x.data y.data

/-! The scenario materializer (`POST /api/scenario/prepare` in server.js). -/

/-- One row of `assets` as fetched by `fetchAssetsByCitySectorSubtype`
(`id, lat, lng, criticality`); the per-rule candidate list is the result of
that city/sector/subtype query. -/
structure AssetRow where
  id : String
  lat : ℚ
  lng : ℚ
  criticality : ℤ
deriving DecidableEq, Repr

/-- An operator-supplied anchor `{type, lat, lng}`. -/
structure Anchor where
  type : String
  lat : ℚ
  lng : ℚ
deriving DecidableEq, Repr

/-- The fields of a `scenario_template_rules` row that the materializer
reads (`sector`/`subtype` only feed the candidate query and are represented
by the candidate list itself; `REAL` columns are `ℚ`, `INTEGER` ones `ℤ`). -/
structure PrepRule where
  rule_id : String
  event_kind : String
  time_pct : ℚ
  selection_scope : String
  target_mode : String
  target_value : ℚ
  allow_reuse_asset : Bool
  performance_pct : ℚ
  repair_time_min : ℚ
  repair_time_max : ℚ
  geo_anchor : Option String
  geo_param_1_km : ℚ
deriving DecidableEq, Repr

/-- `pickCount(target_mode, target_value, candidatesCount)` from server.js. -/
def pickCount (target_mode : String) (target_value : ℚ) (candidatesCount : ℕ) : ℤ :=
  let mode := jsToUpper target_mode
  let val := target_value
  if mode = "COUNT" then clampInt val 0 candidatesCount
  else
    let pct := max 0 (min 100 val)
    clampInt ((⌈pct / 100 * (candidatesCount : ℚ)⌉ : ℤ) : ℚ) 0 candidatesCount

/-- `avgRepairMinutes(minv, maxv)` from server.js.  Values read from the
sqlite store are numbers (SQL `NULL` coerces through `Number(null) = 0`),
so the `Number.isFinite` branches of the source never fire and the function
is the truncated midpoint. -/
def avgRepairMinutes (minv maxv : ℚ) : ℤ :=
  jsTrunc ((minv + maxv) / 2)

/-- `selectAssetsForRule(rule, candidates, anchors)` from server.js.
The great-circle distance (`haversineKm`, floating-point trigonometry in the
source) is abstracted as the explicit parameter `distKm`; none of the
verified properties depend on its values.  The two stable array sorts are
modelled by stable insertion sort. -/
def selectAssetsForRule (distKm : ℚ → ℚ → ℚ → ℚ → ℚ) (rule : PrepRule)
    (candidates : List AssetRow) (anchors : List Anchor) : List AssetRow :=
  let scope := jsToUpper rule.selection_scope
  let pool := candidates
  let pool :=
    if scope = "GEO_RADIUS" then
      let anchorKey := jsToUpper (rule.geo_anchor.getD "CITY_CENTER")
      let a? := anchors.find? (fun x => jsToUpper x.type = anchorKey)
      let rKm := rule.geo_param_1_km
      match a? with
      | some a =>
        if 0 < rKm then pool.filter (fun c => distKm a.lat a.lng c.lat c.lng ≤ rKm)
        else pool
      | none => pool
    else pool
  let pool :=
    if scope = "GRAPH_CENTRALITY" then
      pool.insertionSort (fun x y => y.criticality ≤ x.criticality)
    else
      pool.insertionSort (fun x y => jsStrLe x.id y.id = true)
  let k := pickCount rule.target_mode rule.target_value pool.length
  pool.take k.toNat

/-- One `scenario_events` row as inserted by the prepare handler. -/
structure PrepEvent where
  tick_index : ℤ
  event_kind : String
  asset_id : String
  performance_pct : ℤ
  repair_time_minutes : ℤ
  source_rule_id : Option String
deriving DecidableEq, Repr

/-- The inner `for (const a of chosen)` loop of the prepare handler: skip an
asset already used unless the rule allows reuse, otherwise insert one event
and record the asset as used.  State is
`(events inserted, eventsCreated, usedAssets)`. -/
def emitRuleEvents (rule : PrepRule) (chosen : List AssetRow) (totalTicks : ℤ)
    (st : List PrepEvent × ℕ × List String) : List PrepEvent × ℕ × List String :=
  chosen.foldl (fun st a =>
    let (events, created, used) := st
    if rule.allow_reuse_asset = false ∧ a.id ∈ used then st
    else
      let tick_index := pctToTickIndex rule.time_pct totalTicks
      let rtm := avgRepairMinutes rule.repair_time_min rule.repair_time_max
      (events ++ [⟨tick_index, jsToUpper rule.event_kind, a.id,
          clampInt rule.performance_pct 0 100, rtm, some rule.rule_id⟩],
        created + 1,
        if a.id ∈ used then used else used ++ [a.id])) st

/-- The `for (const rule of rules)` loop of the prepare handler.  Each rule
is paired with its candidate query result; a rule with no candidates is
skipped (`continue`). -/
def buildEvents (distKm : ℚ → ℚ → ℚ → ℚ → ℚ)
    (ruleCands : List (PrepRule × List AssetRow)) (anchors : List Anchor)
    (totalTicks : ℤ) : List PrepEvent × ℕ × List String :=
  ruleCands.foldl (fun st rc =>
    if rc.2.isEmpty then st
    else emitRuleEvents rc.1 (selectAssetsForRule distKm rc.1 rc.2 anchors) totalTicks st)
    ([], 0, [])

/-- One entry of the hard-coded `SCENARIO_TO_TEMPLATE` object. -/
structure TemplateMapping where
  template_id : String
  hazard_type : String
  anchor_required : Option String
deriving DecidableEq, Repr

/-- The `SCENARIO_TO_TEMPLATE` mapping from server.js. -/
def SCENARIO_TO_TEMPLATE : String → Option TemplateMapping
  | "earthquake" => some ⟨"EQ_030", "EARTHQUAKE", some "EPICENTER"⟩
  | "cyber_attack" => some ⟨"CY_020", "CYBER", none⟩
  | "tsunami" => some ⟨"TS_025", "TSUNAMI", some "IMPACT_CENTER"⟩
  | "pandemic" => some ⟨"PD_040", "PANDEMIC", none⟩
  | "severe_storm" => some ⟨"SS_020", "SEVERE_STORM", some "FLOOD_POCKET"⟩
  | "wildfire" => some ⟨"WF_020", "WILDFIRE", some "FIRE_ORIGIN"⟩
  | _ => none

/-- The early-return error responses of the prepare handler, in source
order: missing city, missing scenario key, unknown scenario key, missing
required anchor (the latter carrying the `required_anchor` field of the
response). -/
inductive PrepStop where
  | missingCity
  | missingScen
  | unknownScen (key : String)
  | missingAnchor (required : String)
deriving DecidableEq, Repr

/-- The validation prefix of `POST /api/scenario/prepare`: trim the inputs,
reject a missing city or scenario, resolve the template mapping, and check
the required anchor type against the supplied anchors (uppercased type
comparison), returning the mapping on success. -/
def preparePrecheck (city scen : String) (anchors : List Anchor) :
    Except PrepStop TemplateMapping :=
  let c := jsTrim city
  let s := jsTrim scen
  if c = "" then .error .missingCity
  else if s = "" then .error .missingScen
  else
    match SCENARIO_TO_TEMPLATE s with
    | none => .error (.unknownScen s)
    | some m =>
      match m.anchor_required with
      | some req =>
        if anchors.any (fun a => jsToUpper a.type = req) then .ok m
        else .error (.missingAnchor req)
      | none => .ok m

/-! Recovery injection (`injectAutoRecoveries` in server.js). -/

/-- A damage event row as returned by the query
`SELECT tick_index, asset_id, performance_pct FROM scenario_events WHERE
instance_id = ? AND performance_pct < 100 ORDER BY tick_index ASC`. -/
structure DamageEv where
  tick_index : ℤ
  asset_id : String
  performance_pct : ℤ
deriving DecidableEq, Repr

/-- One triple of `randInt` draws consumed per damage event:
`randInt(2,10)` (partial delay), `randInt(8,40)` (full delay),
`randInt(20,45)` (performance gain). -/
structure Draw where
  dPart : ℤ
  dFull : ℤ
  dPerf : ℤ
deriving DecidableEq, Repr

/-- A recovery row inserted by `injectAutoRecoveries`
(`source_rule_id` is always null). -/
structure RecEvent where
  tick_index : ℤ
  event_kind : String
  asset_id : String
  performance_pct : ℤ
  repair_time_minutes : ℤ
deriving DecidableEq, Repr

/-- The dedup key of an injected event.  The source encodes
`instance_id|asset|tick|pct` as a pipe-joined string with the instance id
constant across the call; we model it as the tuple itself. -/
def recKey (e : RecEvent) : String × ℤ × ℤ :=
  (e.asset_id, e.tick_index, e.performance_pct)

/-- The body of the `for (const ev of damageEvents)` loop in
`injectAutoRecoveries`: compute both candidate recovery events, insert the
partial repair when it improves performance and lands strictly after the
damage tick and its key is unseen, then likewise the full repair. -/
def injectStep (totalTicks tick_minutes : ℤ) (ev : DamageEv) (d : Draw)
    (seen : List (String × ℤ × ℤ)) :
    List RecEvent × List (String × ℤ × ℤ) :=
  let t0 := max 0 ev.tick_index
  let damagedPct := clampZ ev.performance_pct 0 100
  let tPart := min (totalTicks - 1) (t0 + d.dPart)
  let tFull := min (totalTicks - 1) (t0 + d.dFull)
  let partPct := max 50 (min 95 (damagedPct + d.dPerf))
  let st1 :=
    if damagedPct < partPct ∧ t0 < tPart then
      if (ev.asset_id, tPart, partPct) ∈ seen then (([] : List RecEvent), seen)
      else ([⟨tPart, "REPAIR_PARTIAL", ev.asset_id, partPct, d.dPart * tick_minutes⟩],
        seen ++ [(ev.asset_id, tPart, partPct)])
    else ([], seen)
  let st2 :=
    if t0 < tFull then
      if (ev.asset_id, tFull, (100 : ℤ)) ∈ st1.2 then (([] : List RecEvent), st1.2)
      else ([⟨tFull, "REPAIR_FULL", ev.asset_id, 100, d.dFull * tick_minutes⟩],
        st1.2 ++ [(ev.asset_id, tFull, 100)])
    else ([], st1.2)
  (st1.1 ++ st2.1, st2.2)

/-- The loop of `injectAutoRecoveries` over the queried damage events,
threading the dedup set; `i` indexes the pseudo-random draws. -/
def injectAux (totalTicks tick_minutes : ℤ) (draws : ℕ → Draw) :
    List DamageEv → ℕ → List (String × ℤ × ℤ) → List RecEvent
  | [], _, _ => []
  | ev :: rest, i, seen =>
    let st := injectStep totalTicks tick_minutes ev (draws i) seen
    st.1 ++ injectAux totalTicks tick_minutes draws rest (i + 1) st.2

/-- The damage-event query of `injectAutoRecoveries`: keep events with
`performance_pct < 100`, ordered by `tick_index` ascending (stable). -/
def dmgQuery (events : List DamageEv) : List DamageEv :=
  (events.filter (fun e => e.performance_pct < 100)).insertionSort
    (fun a b => a.tick_index ≤ b.tick_index)

/-- `injectAutoRecoveries(db, instance_id, {totalTicks, tick_minutes})` from
server.js, with the store read made explicit: `events` is the instance's
event table and `draws` the pseudo-random source. -/
def injectAutoRecoveries (totalTicks tick_minutes : ℤ)
    (events : List DamageEv) (draws : ℕ → Draw) : List RecEvent :=
  injectAux totalTicks tick_minutes draws (dmgQuery events) 0 []

/-- View of a stored event taken by the damage-event query. -/
def toDamage (e : PrepEvent) : DamageEv :=
  ⟨e.tick_index, e.asset_id, e.performance_pct⟩

/-- An injected recovery as a stored `scenario_events` row
(`source_rule_id = null`). -/
def recToEvent (r : RecEvent) : PrepEvent :=
  ⟨r.tick_index, r.event_kind, r.asset_id, r.performance_pct,
    r.repair_time_minutes, none⟩

/-- The full event table of a prepared instance: the rule-expansion events
followed by the injected recoveries. -/
def prepareEventTable (distKm : ℚ → ℚ → ℚ → ℚ → ℚ)
    (ruleCands : List (PrepRule × List AssetRow)) (anchors : List Anchor)
    (totalTicks tick_minutes : ℤ) (draws : ℕ → Draw) : List PrepEvent :=
  let events := (buildEvents distKm ruleCands anchors totalTicks).1
  events ++
    (injectAutoRecoveries totalTicks tick_minutes (events.map toDamage) draws).map
      recToEvent

/-! The simulation runner (`startSimulationRun` / `computeSimRunTicks`). -/

/-- The asset attributes the runner reads (`id, sector, criticality`). -/
structure SimAsset where
  id : String
  sector : String
  criticality : ℤ
deriving DecidableEq, Repr

/-- A `scenario_events` row as the runner loads it. -/
structure SimEvent where
  tick_index : ℤ
  asset_id : String
  performance_pct : ℤ
deriving DecidableEq, Repr

/-- The events indexed at tick `t` by `startSimulationRun`
(`Math.max(0, Math.trunc(tick_index))`), in stored order. -/
def eventsAt (events : List SimEvent) (t : ℕ) : List SimEvent :=
  events.filter (fun e => (max 0 e.tick_index).toNat = t)

/-- Apply the events of one tick in stored order: set-to semantics
(`run.perfPctById.set(ev.asset_id, clamp(ev.performance_pct, 0, 100))`; the
value was already clamped once at load time, which is idempotent). -/
def applyEvents (evs : List SimEvent) (perf : String → ℤ) : String → ℤ :=
  evs.foldl (fun p e => Function.update p e.asset_id (clampZ e.performance_pct 0 100)) perf

/-- `String(a.sector || "unknown")`: an empty sector falls back to
`"unknown"`. -/
def sectorName (s : String) : String :=
  if s = "" then "unknown" else s

/-- `Math.max(1, Number(a.criticality || 1))`: the sector weight of one
asset. -/
def assetWeight (a : SimAsset) : ℤ :=
  max 1 a.criticality

/-- `m[k] = (m[k] || 0) + v` on a JavaScript object: update the existing
entry or append a new key in insertion order. -/
def bumpAssoc (m : List (String × ℤ)) (k : String) (v : ℤ) : List (String × ℤ) :=
  if m.any (fun kv => kv.1 = k) then
    m.map (fun kv => if kv.1 = k then (kv.1, kv.2 + v) else kv)
  else m ++ [(k, v)]

/-- The `sectorWeights` object precomputed once per run. -/
def sectorWeights (assets : List SimAsset) : List (String × ℤ) :=
  assets.foldl (fun m a => bumpAssoc m (sectorName a.sector) (assetWeight a)) []

/-- The discrete status the runner derives from a stored integer
performance value. -/
def statusOfPerf (p : ℤ) : Status :=
  perfPctToStatus ((clampZ p 0 100 : ℤ) : ℚ)

/-- The body of the per-asset loop of one tick in `computeSimRunTicks`:
read the (clamped) performance of one asset, add its weighted contribution
to the sector sums, compare its current status with the recorded previous
status, and update both the `assets_changed` accumulator and the
previous-status map. -/
def tickAssetStep (perf : String → ℤ)
    (st : List (String × Status) × List (String × ℤ) × (String → Status))
    (a : SimAsset) :
    List (String × Status) × List (String × ℤ) × (String → Status) :=
  let p := clampZ (perf a.id) 0 100
  let sums := bumpAssoc st.2.1 (sectorName a.sector) (p * assetWeight a)
  let status := perfPctToStatus (p : ℚ)
  let changed :=
    if st.2.2 a.id ≠ status then st.1 ++ [(a.id, status)] else st.1
  (changed, sums, Function.update st.2.2 a.id status)

/-- The per-asset loop of one tick in `computeSimRunTicks`: accumulate
`assets_changed`, the weighted sector performance sums, and the updated
previous-status map, in asset order. -/
def tickAssetFold (assets : List SimAsset) (perf : String → ℤ) (prev : String → Status) :
    List (String × Status) × List (String × ℤ) × (String → Status) :=
  assets.foldl (tickAssetStep perf) ([], [], prev)

/-- The `sectors` object of one tick payload:
`Math.round(clamp((sectorPerfSum[sec] || 100 * wSum) / wSum, 0, 100))` for
each sector key of `sectorWeights` (with `wSum = sectorWeights[sec] || 1`).
Note the JavaScript `||`: a weighted sum equal to 0 falls back to
`100 * wSum`. -/
def computeSectors (assets : List SimAsset) (sums : List (String × ℤ)) :
    List (String × ℤ) :=
  (sectorWeights assets).map (fun kv =>
    let wSum : ℤ := if kv.2 = 0 then 1 else kv.2
    let s : ℤ := ((sums.find? (fun e => e.1 = kv.1)).map Prod.snd).getD 0
    let s' : ℤ := if s = 0 then 100 * wSum else s
    (kv.1, round (clamp ((s' : ℚ) / (wSum : ℚ)) 0 100)))

/-- One cached tick payload (the `sim_run_id` and `total_ticks` echo fields
are omitted; they are constants of the run). -/
structure TickPayload where
  tick_index : ℕ
  sectors : List (String × ℤ)
  assets_changed : List (String × Status)
  recommendations : List String
deriving DecidableEq, Repr

/-- One iteration of the tick loop of `computeSimRunTicks`: apply the
events of tick `t`, fold over the assets, build the sectors object and the
demo recommendation line, and return the payload with the updated state. -/
def simStep (assets : List SimAsset) (events : List SimEvent) (t : ℕ)
    (perf : String → ℤ) (prev : String → Status) :
    TickPayload × (String → ℤ) × (String → Status) :=
  let perf' := applyEvents (eventsAt events t) perf
  let folded := tickAssetFold assets perf' prev
  let sectors := computeSectors assets folded.2.1
  let recs :=
    if folded.1.length ≠ 0 then
      ["Tick " ++ toString (t + 1) ++ ": " ++ toString folded.1.length ++
        " assets changed state. Prioritize critical repairs in affected sectors."]
    else []
  (⟨t, sectors, folded.1, recs⟩, perf', folded.2.2)

/-- Baseline performance: every asset starts at 100 %. -/
def initPerf : String → ℤ := fun _ => 100

/-- Baseline previous status, derived from the baseline performance. -/
def initStatus : String → Status := fun _ => perfPctToStatus ((100 : ℤ) : ℚ)

/-- The runner state after the ticks `0 .. t` have been processed:
`(payload of tick t, performance map, previous-status map)`. -/
def runnerState (assets : List SimAsset) (events : List SimEvent) :
    ℕ → TickPayload × (String → ℤ) × (String → Status)
  | 0 => simStep assets events 0 initPerf initStatus
  | t + 1 =>
    let st := runnerState assets events t
    simStep assets events (t + 1) st.2.1 st.2.2

/-- The cached payload of tick `t`. -/
def payloadAt (assets : List SimAsset) (events : List SimEvent) (t : ℕ) :
    TickPayload :=
  (runnerState assets events t).1

/-- Specification-level performance state: the per-asset performance map
after the events of ticks `0 .. t` have been applied in order. -/
def perfAt (events : List SimEvent) : ℕ → String → ℤ
  | 0 => applyEvents (eventsAt events 0) initPerf
  | t + 1 => applyEvents (eventsAt events (t + 1)) (perfAt events t)

/-- Specification-level status after tick `t`. -/
def statusAt (events : List SimEvent) (t : ℕ) (id : String) : Status :=
  perfPctToStatus ((perfAt events t id : ℤ) : ℚ)

/-- Specification-level status before tick `t` (after the previous tick;
at tick 0 it is the baseline status of performance 100). -/
def prevStatusAt (events : List SimEvent) : ℕ → String → Status
  | 0 => fun _ => perfPctToStatus ((100 : ℤ) : ℚ)
  | t + 1 => statusAt events t

/-- The sector-health formula as the specification states it:
`round(Σ(perf_i · criticality_i) / Σ(criticality_i))` over the sector's
assets. -/
def specSectorHealth (assets : List SimAsset) (perf : String → ℤ) (sec : String) : ℤ :=
  let secAssets := assets.filter (fun a => a.sector = sec)
  let num := (secAssets.map (fun a => perf a.id * a.criticality)).sum
  let den := (secAssets.map (fun a => a.criticality)).sum
  round ((num : ℚ) / (den : ℚ))

/-- The observable run bookkeeping of `computeSimRunTicks`:
`computed_max_tick`, the tick cache, and the `done` flag. -/
structure RunState where
  computed_max_tick : ℤ
  cache : List (ℕ × TickPayload)
  done : Bool
deriving DecidableEq, Repr

/-- The precomputation loop as a sequence of observable states: each
iteration caches the payload of tick `t` and publishes
`computed_max_tick = t`; after the last tick the run is marked done.  The
first argument is the number of remaining ticks. -/
def runLoop (assets : List SimAsset) (events : List SimEvent) :
    ℕ → ℕ → (String → ℤ) → (String → Status) → List (ℕ × TickPayload) →
    List RunState
  | 0, t, _, _, cache => [⟨(t : ℤ) - 1, cache, true⟩]
  | r + 1, t, perf, prev, cache =>
    let st := simStep assets events t perf prev
    let cache' := cache ++ [(t, st.1)]
    ⟨(t : ℤ), cache', false⟩ :: runLoop assets events r (t + 1) st.2.1 st.2.2 cache'

/-- The full observable state sequence of one run: the freshly created
shell (`computed_max_tick = -1`, empty cache, not done) followed by the
states published by the tick loop. -/
def runStates (assets : List SimAsset) (events : List SimEvent) (total : ℕ) :
    List RunState :=
  ⟨-1, [], false⟩ :: runLoop assets events total 0 initPerf initStatus []

/-! The dependency chain resolver (`GET /api/dependencies/chain`). -/

/-- One `asset_dependencies` row. -/
structure DepRow where
  provider_asset_id : String
  consumer_asset_id : String
  dependency_type : String
  priority : ℤ
  is_active : Bool
deriving DecidableEq, Repr

/-- An edge of the chain response (`from`/`to` are reserved words in Lean,
hence `fromId`/`toId`). -/
structure ChainEdge where
  fromId : String
  toId : String
  dependency_type : String
  priority : ℤ
  level : ℕ
deriving DecidableEq, Repr

/-- BFS bookkeeping: discovered nodes, emitted edges, seen edge keys,
visited nodes, and the queue of `(node, depth)` pairs. -/
abbrev ChainState :=
  List String × List ChainEdge × List (String × String × String × ℤ) ×
    List String × List (String × ℕ)

/-- `Set.add`: append if absent, keeping insertion order. -/
def addUnique (l : List String) (x : String) : List String :=
  if x ∈ l then l else l ++ [x]

/-- The body of the `for (const d of deps)` scan for one dependency row
`d` while expanding the node `id` at `depth`: on a directional match, emit
the edge (deduplicated on `(from, to, dependency_type, priority)`) with
`level = depth + 1`, record both endpoints as nodes, and enqueue the far
endpoint if unvisited. -/
def chainStep (up : Bool) (id : String) (depth : ℕ)
    (st : ChainState) (d : DepRow) : ChainState :=
  let (nodes, edges, seen, visited, q) := st
  let isMatch := if up then d.consumer_asset_id = id else d.provider_asset_id = id
  if isMatch then
    let f := if up then d.consumer_asset_id else d.provider_asset_id
    let t := if up then d.provider_asset_id else d.consumer_asset_id
    let k := (f, t, d.dependency_type, d.priority)
    let es :=
      if k ∈ seen then (edges, seen)
      else (edges ++ [⟨f, t, d.dependency_type, d.priority, depth + 1⟩], seen ++ [k])
    let nodes := addUnique (addUnique nodes f) t
    let vq :=
      if t ∈ visited then (visited, q)
      else (visited ++ [t], q ++ [(t, depth + 1)])
    (nodes, es.1, es.2, vq.1, vq.2)
  else st

/-- The `for (const d of deps)` scan of one dequeued node at `depth`. -/
def chainScan (deps : List DepRow) (up : Bool) (id : String) (depth : ℕ)
    (st : ChainState) : ChainState :=
  deps.foldl (chainStep up id depth) st

/-- The dedup key of an emitted edge. -/
def edgeKey (e : ChainEdge) : String × String × String × ℤ :=
  (e.fromId, e.toId, e.dependency_type, e.priority)

/-- The BFS `while (q.length)` loop, with explicit fuel (one unit per
dequeue; the caller supplies enough for the finite graph).  A node at
`depth ≥ max_depth` is dequeued but not expanded. -/
def chainLoop (deps : List DepRow) (up : Bool) (maxDepth : ℚ) :
    ℕ → ChainState → List String × List ChainEdge
  | 0, st => (st.1, st.2.1)
  | fuel + 1, st =>
    match st.2.2.2.2 with
    | [] => (st.1, st.2.1)
    | (id, depth) :: q' =>
      let st' := (st.1, st.2.1, st.2.2.1, st.2.2.2.1, q')
      if maxDepth ≤ (depth : ℚ) then chainLoop deps up maxDepth fuel st'
      else chainLoop deps up maxDepth fuel (chainScan deps up id depth st')

/-- The whole traversal from `root`: visited and node sets start at the
root, the queue at depth 0.  Each dequeue consumes one unit of fuel and
each distinct node is enqueued at most once, so `2 * deps.length + 1` fuel
always suffices. -/
def chainBFS (deps : List DepRow) (up : Bool) (maxDepth : ℚ) (root : String) :
    List String × List ChainEdge :=
  chainLoop deps up maxDepth (2 * deps.length + 1)
    ([root], [], [], [root], [(root, 0)])

/-- The outcome of `GET /api/dependencies/chain`: HTTP 400, HTTP 404, or
the JSON body (node rows are represented by their ids). -/
inductive ChainResult where
  | badRequest (msg : String)
  | notFound (msg : String)
  | ok (root : String) (nodes : List String) (edges : List ChainEdge)
deriving DecidableEq, Repr

/-- `Math.max(1, Math.min(12, Number(req.query.max_depth || 4)))`: the
effective depth bound; a missing parameter defaults to 4 and numeric values
are clamped into `[1, 12]`. -/
def effMaxDepth (mdp : Option ℚ) : ℚ :=
  max 1 (min 12 (mdp.getD 4))

/-- The `GET /api/dependencies/chain` handler over a store holding the
asset ids `assets` and the dependency table `deps`: validate the inputs,
run the BFS over the active edges, resolve the discovered node ids in the
assets table, and 404 when the root is absent from the resolved nodes. -/
def chainEndpoint (assets : List String) (deps : List DepRow)
    (asset_id direction : String) (mdp : Option ℚ) : ChainResult :=
  let aid := jsTrim asset_id
  let dir := jsToLower (if direction = "" then "upstream" else direction)
  let md := effMaxDepth mdp
  if aid = "" then .badRequest "asset_id is required"
  else if ¬(dir = "upstream" ∨ dir = "downstream") then
    .badRequest "direction must be upstream or downstream"
  else
    let active := deps.filter (fun d => d.is_active)
    let r := chainBFS active (dir = "upstream") md aid
    let resolved := (r.1).filter (fun n => n ∈ assets)
    if ¬ aid ∈ resolved then .notFound ("asset_id not found: " ++ aid)
    else .ok aid r.1 r.2

/-! Concrete example data used by the boundary and counterexample
theorems. -/

/-- A trivial distance function for examples whose rules do not use
`GEO_RADIUS`. -/
def exDist : ℚ → ℚ → ℚ → ℚ → ℚ := fun _ _ _ _ => 0

/-- Example asset rows. -/
def exA : AssetRow := ⟨"a", 0, 0, 1⟩

def exB : AssetRow := ⟨"b", 0, 0, 1⟩

def exC : AssetRow := ⟨"c", 0, 0, 1⟩

/-- Example rule: IMPACT at `time_pct = 0`, `COUNT 1`, no asset reuse,
sets performance 0. -/
def exRule1 : PrepRule := ⟨"r1", "IMPACT", 0, "", "COUNT", 1, false, 0, 0, 0, none, 0⟩

/-- Example rule: IMPACT at `time_pct = 0`, `COUNT 2`, no asset reuse,
sets performance 40. -/
def exRule2 : PrepRule := ⟨"r2", "IMPACT", 0, "", "COUNT", 2, false, 40, 0, 0, none, 0⟩

/-- Example pseudo-random draws: partial delay 2, full delay 8,
performance gain 30. -/
def exDraws : ℕ → Draw := fun _ => ⟨2, 8, 30⟩

/-- The active provider→consumer chain `X→Y→Z→W` of the specification's
dependency-resolver scenario. -/
def exDeps : List DepRow :=
  [⟨"X", "Y", "t", 1, true⟩, ⟨"Y", "Z", "t", 1, true⟩, ⟨"Z", "W", "t", 1, true⟩]

/-- Every event inserted by one rule carries the tick index computed by
`pctToTickIndex` from that rule's `time_pct`. -/
theorem emitRuleEvents_tick (rule : PrepRule) (T : ℤ) :
    ∀ (chosen : List AssetRow) (st : List PrepEvent × ℕ × List String)
      (e : PrepEvent), e ∈ (emitRuleEvents rule chosen T st).1 →
      e ∈ st.1 ∨ e.tick_index = pctToTickIndex rule.time_pct T := by
  intro chosen
  induction chosen with
  | nil => intro st e he; exact Or.inl (by simpa [emitRuleEvents] using he)
  | cons a rest ih =>
    intro st e he
    simp only [emitRuleEvents, List.foldl_cons] at he
    rcases ih _ e he with hmem | htick
    · rcases st with ⟨evs, cr, us⟩
      by_cases hc : rule.allow_reuse_asset = false ∧ a.id ∈ us
      · exact Or.inl (by simpa [hc] using hmem)
      · have hmem' : e ∈ evs ∨ e =
            (⟨pctToTickIndex rule.time_pct T, jsToUpper rule.event_kind, a.id,
              clampInt rule.performance_pct 0 100,
              avgRepairMinutes rule.repair_time_min rule.repair_time_max,
              some rule.rule_id⟩ : PrepEvent) := by
          simpa [hc] using hmem
        rcases hmem' with h1 | h2
        · exact Or.inl h1
        · subst h2
          exact Or.inr rfl
    · exact Or.inr htick

/-- Every event produced by the rule-expansion loop carries the tick index
computed by `pctToTickIndex` from the `time_pct` of one of the rules. -/
theorem buildEvents_tick (distKm : ℚ → ℚ → ℚ → ℚ → ℚ)
    (anchors : List Anchor) (T : ℤ) :
    ∀ (rcs : List (PrepRule × List AssetRow)) (st : List PrepEvent × ℕ × List String)
      (e : PrepEvent),
      e ∈ ((rcs.foldl (fun st rc =>
          if rc.2.isEmpty then st
          else emitRuleEvents rc.1 (selectAssetsForRule distKm rc.1 rc.2 anchors) T st)
        st)).1 →
      e ∈ st.1 ∨ ∃ rc ∈ rcs, e.tick_index = pctToTickIndex rc.1.time_pct T := by
  intro rcs
  induction rcs with
  | nil => intro st e he; exact Or.inl (by simpa using he)
  | cons rc rest ih =>
    intro st e he
    simp only [List.foldl_cons] at he
    rcases ih _ e he with hmem | ⟨rc', hrc', htick⟩
    · by_cases hemp : rc.2.isEmpty
      · simp only [hemp, if_pos] at hmem
        exact Or.inl (by simpa [hemp] using hmem)
      · simp only [hemp, if_neg, not_false_iff] at hmem
        rcases emitRuleEvents_tick rc.1 T _ st e (by simpa [hemp] using hmem) with h1 | h2
        · exact Or.inl h1
        · exact Or.inr ⟨rc, List.mem_cons_self rc rest, h2⟩
    · exact Or.inr ⟨rc', List.mem_cons_of_mem rc hrc', htick⟩

/-- C1: for every rule, the materializer schedules each emitted event at
`tick_index = clamp(⌈time_pct/100 · total_ticks⌉, 0, total_ticks − 1)`; in
particular for `total_ticks ≥ 1`, `time_pct = 0` yields tick 0 and
`time_pct = 100` yields tick `total_ticks − 1`. -/
theorem pctToTickIndex_clamp_formula (p : ℚ) (T : ℤ) (hT : 1 ≤ T) :
    pctToTickIndex p T = max 0 (min (T - 1) ⌈p / 100 * (T : ℚ)⌉)
      ∧ pctToTickIndex 0 T = 0
      ∧ pctToTickIndex 100 T = T - 1
      ∧ (∀ (distKm : ℚ → ℚ → ℚ → ℚ → ℚ) (rcs : List (PrepRule × List AssetRow))
          (anchors : List Anchor) (e : PrepEvent),
          e ∈ (buildEvents distKm rcs anchors T).1 →
          ∃ rc ∈ rcs, e.tick_index = pctToTickIndex rc.1.time_pct T) := by
  have hT0 : (0 : ℤ) ≤ T - 1 := by omega
  have hTQ : (0 : ℚ) ≤ (T : ℚ) := by exact_mod_cast (by omega : (0:ℤ) ≤ T)
  refine ⟨?_, ?_, ?_, ?_⟩
  · -- general clamp formula: pre-clamping time_pct to [0,100] is absorbed
    -- by the final clamp to [0, T-1]
    unfold pctToTickIndex
    dsimp only
    rcases le_or_lt p 0 with h0 | h0
    · have hmin : min 100 p = p := min_eq_right (by linarith)
      have hmax : max 0 (min 100 p) = 0 := by rw [hmin]; exact max_eq_left h0
      have hdiv : p / 100 ≤ 0 := by linarith
      have h2 : ⌈p / 100 * (T : ℚ)⌉ ≤ 0 := by
        apply Int.ceil_le.mpr
        push_cast
        nlinarith [hdiv, hTQ]
      have hL : (⌈(0 : ℚ) / 100 * (T : ℚ)⌉ : ℤ) = 0 := by norm_num
      rw [hmax, hL, min_eq_right hT0, min_eq_right (le_trans h2 hT0),
        max_eq_left le_rfl, max_eq_left h2]
    · rcases le_or_lt 100 p with h100 | h100
      · have hmin : min 100 p = 100 := min_eq_left h100
        have hmax : max 0 (min 100 p) = (100 : ℚ) := by rw [hmin]; norm_num
        have hL : (⌈(100 : ℚ) / 100 * (T : ℚ)⌉ : ℤ) = T := by norm_num
        have hd : (1 : ℚ) ≤ p / 100 := by linarith
        have h2 : T ≤ ⌈p / 100 * (T : ℚ)⌉ := by
          calc T = ⌈(T : ℚ)⌉ := by simp
            _ ≤ ⌈p / 100 * (T : ℚ)⌉ := Int.ceil_mono (by nlinarith [hd, hTQ])
        rw [hmax, hL, min_eq_left (by omega : T - 1 ≤ T),
          min_eq_left (le_trans (by omega : T - 1 ≤ T) h2)]
      · have hmin : min 100 p = p := min_eq_right (le_of_lt h100)
        have hmax : max 0 (min 100 p) = p := by rw [hmin]; exact max_eq_right (le_of_lt h0)
        rw [hmax]
  · -- time_pct = 0 → tick 0
    unfold pctToTickIndex
    norm_num
  · -- time_pct = 100 → tick total_ticks - 1
    unfold pctToTickIndex
    have hL : (⌈(100 : ℚ) / 100 * (T : ℚ)⌉ : ℤ) = T := by norm_num
    norm_num [hL]
    omega
  · -- every materialized event is scheduled by pctToTickIndex
    intro distKm rcs anchors e he
    rcases buildEvents_tick distKm anchors T rcs ([], 0, []) e he with h0 | h
    · exact absurd h0 (List.not_mem_nil e)
    · exact h

/-- Witness for C1 at `time_pct = 37`, `total_ticks = 10`. -/
theorem pctToTickIndex_clamp_formula_witness :
    pctToTickIndex 37 10 = max 0 (min (10 - 1) ⌈(37 : ℚ) / 100 * (10 : ℚ)⌉)
      ∧ pctToTickIndex 0 10 = 0
      ∧ pctToTickIndex 100 10 = 10 - 1 :=
  ⟨(pctToTickIndex_clamp_formula 37 10 (by decide)).1,
    (pctToTickIndex_clamp_formula 37 10 (by decide)).2.1,
    (pctToTickIndex_clamp_formula 37 10 (by decide)).2.2.1⟩

/-- C3 (code bug): in a city whose only electricity asset (criticality 3) is
set to performance 0 at tick 0, the runner reports sector health 100 — the
`sectorPerfSum[sec] || 100 * wSum` fallback in `computeSimRunTicks` treats
the legitimate weighted sum 0 as a missing entry — while the specified
formula `round(Σ(perf·criticality) / Σ(criticality))` gives 0. -/
theorem sector_health_all_failed_divergence :
    (payloadAt [⟨"a1", "electricity", 3⟩] [⟨0, "a1", 0⟩] 0).sectors
        = [("electricity", 100)]
      ∧ specSectorHealth [⟨"a1", "electricity", 3⟩]
          (perfAt [⟨0, "a1", 0⟩] 0) "electricity" = 0 := by
  constructor
  · simp only [payloadAt, runnerState, simStep, tickAssetFold, computeSectors,
      sectorWeights, bumpAssoc, applyEvents, eventsAt, initPerf, initStatus,
      perfPctToStatus, clamp, clampZ, sectorName, assetWeight, Function.update,
      List.foldl, List.filter, List.map, List.find?, List.any]
    norm_num [round_eq, clampZ, sectorName]
    decide
  · simp only [specSectorHealth, perfAt, applyEvents, eventsAt, initPerf,
      Function.update, List.foldl, List.filter, List.map, List.sum]
    norm_num [round_eq, clampZ]

/-- C4: prepare fails with the unknown-scenario error exactly when the
trimmed UI scenario key has no entry in `SCENARIO_TO_TEMPLATE`, and with the
missing-anchor error (carrying `required_anchor`) exactly when the mapped
hazard requires an anchor type and no supplied anchor has that type
(uppercased); in particular the earthquake prepare without anchors yields
the missing-anchor error with `required_anchor = "EPICENTER"`. -/
theorem prepare_scenario_errors (city scen : String) (anchors : List Anchor)
    (hc : jsTrim city ≠ "") (hs : jsTrim scen ≠ "") :
    ((∃ s, preparePrecheck city scen anchors = .error (.unknownScen s)) ↔
        SCENARIO_TO_TEMPLATE (jsTrim scen) = none)
      ∧ (∀ req, preparePrecheck city scen anchors = .error (.missingAnchor req) ↔
          ∃ m, SCENARIO_TO_TEMPLATE (jsTrim scen) = some m
            ∧ m.anchor_required = some req
            ∧ ∀ a ∈ anchors, jsToUpper a.type ≠ req)
      ∧ preparePrecheck "Jerusalem" "earthquake" []
          = .error (.missingAnchor "EPICENTER") := by
  refine ⟨?_, ?_, ?_⟩
  · unfold preparePrecheck
    rw [if_neg hc, if_neg hs]
    cases h : SCENARIO_TO_TEMPLATE (jsTrim scen) with
    | none => simp
    | some m =>
      cases hm : m.anchor_required with
      | none => simp [hm]
      | some req =>
        by_cases ha : anchors.any (fun a => jsToUpper a.type = req)
        · simp [hm, ha]
        · simp [hm, ha]
  · intro req
    unfold preparePrecheck
    rw [if_neg hc, if_neg hs]
    cases h : SCENARIO_TO_TEMPLATE (jsTrim scen) with
    | none => simp
    | some m =>
      dsimp only
      cases hm : m.anchor_required with
      | none => simp [hm, h]
      | some req2 =>
        by_cases ha : anchors.any (fun a => jsToUpper a.type = req2)
        · dsimp only
          rw [if_pos ha]
          constructor
          · intro hcontra
            exact absurd hcontra (by simp)
          · rintro ⟨m2, hm2, hreq, hall⟩
            injection hm2 with hmm
            subst hmm
            rw [hm] at hreq
            injection hreq with hrr
            subst hrr
            rw [List.any_eq_true] at ha
            obtain ⟨a, haa, hupper⟩ := ha
            exact absurd (of_decide_eq_true hupper) (hall a haa)
        · dsimp only
          rw [if_neg ha]
          simp only [List.any_eq_true, not_exists, decide_eq_true_eq] at ha
          push_neg at ha
          constructor
          · intro heq
            injection heq with h1
            injection h1 with h2
            subst h2
            exact ⟨m, rfl, hm, fun a haa => ha a haa⟩
          · rintro ⟨m2, hm2, hreq, hall⟩
            injection hm2 with hmm
            subst hmm
            rw [hm] at hreq
            injection hreq with hrr
            subst hrr
            rfl
  · rfl

/-- Witness for C4 at the concrete earthquake prepare without anchors. -/
theorem prepare_scenario_errors_witness :
    jsTrim "Jerusalem" ≠ "" ∧ jsTrim "earthquake" ≠ ""
      ∧ preparePrecheck "Jerusalem" "earthquake" []
          = .error (.missingAnchor "EPICENTER") :=
  ⟨by decide, by decide,
    (prepare_scenario_errors "Jerusalem" "earthquake" [] (by decide) (by decide)).2.2⟩

/-- The event counter of one rule's insertion loop stays equal to the
number of inserted events. -/
theorem emitRuleEvents_created_eq_length (rule : PrepRule) (T : ℤ) :
    ∀ (chosen : List AssetRow) (st : List PrepEvent × ℕ × List String),
      st.2.1 = st.1.length →
      (emitRuleEvents rule chosen T st).2.1
        = (emitRuleEvents rule chosen T st).1.length := by
  intro chosen
  induction chosen with
  | nil => intro st h; simpa [emitRuleEvents] using h
  | cons a rest ih =>
    intro st h
    simp only [emitRuleEvents, List.foldl_cons]
    apply ih
    rcases st with ⟨evs, cr, us⟩
    by_cases hc : rule.allow_reuse_asset = false ∧ a.id ∈ us
    · simpa [hc] using h
    · simp only [] at h
      simp [hc, h]

/-- The `eventsCreated` counter of the rule loop stays equal to the number
of inserted events. -/
theorem buildEvents_created_aux (distKm : ℚ → ℚ → ℚ → ℚ → ℚ)
    (anchors : List Anchor) (T : ℤ) :
    ∀ (rcs : List (PrepRule × List AssetRow)) (st : List PrepEvent × ℕ × List String),
      st.2.1 = st.1.length →
      ((rcs.foldl (fun st rc =>
          if rc.2.isEmpty then st
          else emitRuleEvents rc.1 (selectAssetsForRule distKm rc.1 rc.2 anchors) T st)
        st)).2.1
        = ((rcs.foldl (fun st rc =>
            if rc.2.isEmpty then st
            else emitRuleEvents rc.1 (selectAssetsForRule distKm rc.1 rc.2 anchors) T st)
          st)).1.length := by
  intro rcs
  induction rcs with
  | nil => intro st h; simpa using h
  | cons rc rest ih =>
    intro st h
    simp only [List.foldl_cons]
    apply ih
    by_cases he : rc.2.isEmpty
    · simpa [he] using h
    · simp only [he, if_false]
      exact emitRuleEvents_created_eq_length rc.1 T _ st h

/-- C10: the selection count `k` of a rule is taken from the filtered pool
before used assets are excluded, a chosen asset skipped for reuse is not
replaced by the next candidate, so a no-reuse rule may emit strictly fewer
than `k` events, and `events_created` counts exactly the inserted events.
In the example, rule `r2` gets `k = 2` out of 3 candidates, its first
choice `a` is skipped (used by rule `r1`), and only one event (on `b`) is
emitted while candidate `c` stays unused. -/
theorem selection_count_before_reuse_filter :
    (∀ (distKm : ℚ → ℚ → ℚ → ℚ → ℚ) (rcs : List (PrepRule × List AssetRow))
        (anchors : List Anchor) (T : ℤ),
        (buildEvents distKm rcs anchors T).2.1
          = (buildEvents distKm rcs anchors T).1.length)
      ∧ pickCount "COUNT" 2 3 = 2
      ∧ selectAssetsForRule exDist exRule2 [exA, exB, exC] [] = [exA, exB]
      ∧ (buildEvents exDist [(exRule1, [exA]), (exRule2, [exA, exB, exC])] [] 10).1
          = [⟨0, "IMPACT", "a", 0, 0, some "r1"⟩,
             ⟨0, "IMPACT", "b", 40, 0, some "r2"⟩] := by
  refine ⟨fun distKm rcs anchors T =>
    buildEvents_created_aux distKm anchors T rcs ([], 0, []) rfl, by decide, by decide, ?_⟩
  simp only [buildEvents, emitRuleEvents, selectAssetsForRule, pickCount, clampInt,
    jsTrunc, avgRepairMinutes, pctToTickIndex, exDist, exA, exB, exC, exRule1, exRule2,
    jsToUpper, jsStrLe, charListLe, List.foldl, List.insertionSort, List.orderedInsert,
    List.foldl_cons, List.foldl_nil]
  norm_num
  decide

/-- One dependency scan step either leaves edges and seen keys unchanged or
emits a single edge at `level = depth + 1` whose key was unseen. -/
lemma chainStep_edges (up : Bool) (id : String) (depth : ℕ) (st : ChainState) (d : DepRow) :
    ((chainStep up id depth st d).2.1 = st.2.1
        ∧ (chainStep up id depth st d).2.2.1 = st.2.2.1)
      ∨ ∃ e : ChainEdge, e.level = depth + 1 ∧ edgeKey e ∉ st.2.2.1
          ∧ (chainStep up id depth st d).2.1 = st.2.1 ++ [e]
          ∧ (chainStep up id depth st d).2.2.1 = st.2.2.1 ++ [edgeKey e] := by
  rcases st with ⟨nodes, edges, seen, visited, q⟩
  unfold chainStep
  dsimp only
  split_ifs
  all_goals try (left; exact ⟨rfl, rfl⟩)
  all_goals right
  all_goals first
    | exact ⟨⟨d.consumer_asset_id, d.provider_asset_id, d.dependency_type, d.priority,
        depth + 1⟩, rfl, by simp only [edgeKey]; assumption, rfl, rfl⟩
    | exact ⟨⟨d.provider_asset_id, d.consumer_asset_id, d.dependency_type, d.priority,
        depth + 1⟩, rfl, by simp only [edgeKey]; assumption, rfl, rfl⟩

/-- One dependency scan step never removes nodes. -/
lemma chainStep_nodes_mono (up : Bool) (id : String) (depth : ℕ) (st : ChainState)
    (d : DepRow) : ∀ x ∈ st.1, x ∈ (chainStep up id depth st d).1 := by
  intro x hx
  rcases st with ⟨nodes, edges, seen, visited, q⟩
  unfold chainStep
  dsimp only
  split_ifs
  all_goals first
    | exact hx
    | (simp only [addUnique]; split_ifs <;> simp_all)

/-- The scan of one dequeued node preserves key-distinctness of the edge
list and that every emitted key is recorded in the seen set. -/
lemma chainScan_pairwise_seen (up : Bool) (id : String) (depth : ℕ) :
    ∀ (deps : List DepRow) (st : ChainState),
      st.2.1.Pairwise (fun a b => edgeKey a ≠ edgeKey b) →
      (∀ e ∈ st.2.1, edgeKey e ∈ st.2.2.1) →
      ((chainScan deps up id depth st).2.1.Pairwise (fun a b => edgeKey a ≠ edgeKey b)
        ∧ ∀ e ∈ (chainScan deps up id depth st).2.1,
            edgeKey e ∈ (chainScan deps up id depth st).2.2.1) := by
  intro deps
  induction deps with
  | nil => intro st h1 h2; exact ⟨by simpa [chainScan] using h1, by simpa [chainScan] using h2⟩
  | cons d rest ih =>
    intro st h1 h2
    have hstep := chainStep_edges up id depth st d
    have hgoal : chainScan (d :: rest) up id depth st
        = chainScan rest up id depth (chainStep up id depth st d) := by
      simp [chainScan, List.foldl_cons]
    rw [hgoal]
    rcases hstep with ⟨he, hs⟩ | ⟨e, _, hnot, he, hs⟩
    · exact ih _ (by rw [he]; exact h1) (by rw [he, hs]; exact h2)
    · apply ih
      · rw [he]
        rw [List.pairwise_append]
        refine ⟨h1, List.pairwise_singleton _ _, ?_⟩
        intro a ha b hb
        simp only [List.mem_singleton] at hb
        subst hb
        intro hk
        exact hnot (hk ▸ h2 a ha)
      · rw [he, hs]
        intro x hx
        rcases List.mem_append.mp hx with hxa | hxb
        · exact List.mem_append_left _ (h2 x hxa)
        · simp only [List.mem_singleton] at hxb
          subst hxb
          exact List.mem_append_right _ (List.mem_singleton_self _)

/-- An edge present after scanning a node at `depth` was either present
before or has `level = depth + 1`. -/
lemma chainScan_edge_mem (up : Bool) (id : String) (depth : ℕ) :
    ∀ (deps : List DepRow) (st : ChainState) (e : ChainEdge),
      e ∈ (chainScan deps up id depth st).2.1 → e ∈ st.2.1 ∨ e.level = depth + 1 := by
  intro deps
  induction deps with
  | nil => intro st e he; exact Or.inl (by simpa [chainScan] using he)
  | cons d rest ih =>
    intro st e he
    have hgoal : chainScan (d :: rest) up id depth st
        = chainScan rest up id depth (chainStep up id depth st d) := by
      simp [chainScan, List.foldl_cons]
    rw [hgoal] at he
    rcases ih _ e he with hmem | hl
    · rcases chainStep_edges up id depth st d with ⟨heq, _⟩ | ⟨e2, hl2, _, heq, _⟩
      · exact Or.inl (heq ▸ hmem)
      · rw [heq] at hmem
        rcases List.mem_append.mp hmem with h1 | h2
        · exact Or.inl h1
        · simp only [List.mem_singleton] at h2
          subst h2
          exact Or.inr hl2
    · exact Or.inr hl

/-- The scan of one dequeued node never removes nodes. -/
lemma chainScan_nodes_mono (up : Bool) (id : String) (depth : ℕ) :
    ∀ (deps : List DepRow) (st : ChainState) (x : String),
      x ∈ st.1 → x ∈ (chainScan deps up id depth st).1 := by
  intro deps
  induction deps with
  | nil => intro st x hx; simpa [chainScan] using hx
  | cons d rest ih =>
    intro st x hx
    have hgoal : chainScan (d :: rest) up id depth st
        = chainScan rest up id depth (chainStep up id depth st d) := by
      simp [chainScan, List.foldl_cons]
    rw [hgoal]
    exact ih _ x (chainStep_nodes_mono up id depth st d x hx)

/-- The BFS loop keeps the emitted edges pairwise distinct on their dedup
key. -/
lemma chainLoop_pairwise (deps : List DepRow) (up : Bool) (md : ℚ) :
    ∀ (fuel : ℕ) (st : ChainState),
      st.2.1.Pairwise (fun a b => edgeKey a ≠ edgeKey b) →
      (∀ e ∈ st.2.1, edgeKey e ∈ st.2.2.1) →
      (chainLoop deps up md fuel st).2.Pairwise (fun a b => edgeKey a ≠ edgeKey b) := by
  intro fuel
  induction fuel with
  | zero => intro st h1 _; simpa [chainLoop] using h1
  | succ n ih =>
    intro st h1 h2
    rcases st with ⟨nodes, edges, seen, visited, q⟩
    rcases q with _ | ⟨⟨id, depth⟩, q'⟩
    · simpa [chainLoop] using h1
    · simp only [chainLoop]
      split_ifs with hd
      · exact ih _ h1 h2
      · have := chainScan_pairwise_seen up id depth deps
          (nodes, edges, seen, visited, q') h1 h2
        exact ih _ this.1 this.2

/-- Every edge the BFS loop emits has `1 ≤ level` and was emitted while
expanding a node at depth `level - 1 < max_depth`. -/
lemma chainLoop_level (deps : List DepRow) (up : Bool) (md : ℚ) :
    ∀ (fuel : ℕ) (st : ChainState),
      (∀ e ∈ st.2.1, 1 ≤ e.level ∧ ((e.level : ℚ) - 1 < md)) →
      ∀ e ∈ (chainLoop deps up md fuel st).2,
        1 ≤ e.level ∧ ((e.level : ℚ) - 1 < md) := by
  intro fuel
  induction fuel with
  | zero => intro st h e he; exact h e (by simpa [chainLoop] using he)
  | succ n ih =>
    intro st h e he
    rcases st with ⟨nodes, edges, seen, visited, q⟩
    rcases q with _ | ⟨⟨id, depth⟩, q'⟩
    · exact h e (by simpa [chainLoop] using he)
    · simp only [chainLoop] at he
      split_ifs at he with hd
      · exact ih (nodes, edges, seen, visited, q') h e he
      · refine ih _ ?_ e he
        intro x hx
        rcases chainScan_edge_mem up id depth deps
            (nodes, edges, seen, visited, q') x hx with hmem | hl
        · exact h x hmem
        · constructor
          · omega
          · rw [hl]
            push_cast
            push_neg at hd
            linarith

/-- The BFS loop never removes nodes. -/
lemma chainLoop_nodes_mono (deps : List DepRow) (up : Bool) (md : ℚ) :
    ∀ (fuel : ℕ) (st : ChainState) (x : String),
      x ∈ st.1 → x ∈ (chainLoop deps up md fuel st).1 := by
  intro fuel
  induction fuel with
  | zero => intro st x hx; simpa [chainLoop] using hx
  | succ n ih =>
    intro st x hx
    rcases st with ⟨nodes, edges, seen, visited, q⟩
    rcases q with _ | ⟨⟨id, depth⟩, q'⟩
    · simpa [chainLoop] using hx
    · simp only [chainLoop]
      split_ifs with hd
      · exact ih (nodes, edges, seen, visited, q') x hx
      · exact ih _ x (chainScan_nodes_mono up id depth deps
          (nodes, edges, seen, visited, q') x hx)

/-- C5: the dependency resolver is a directed BFS whose emitted edges are
deduplicated on `(from, to, dependency_type, priority)` and annotated with
`level = depth + 1`, nodes at depth `>= max_depth` are not expanded (so every
edge level lies in `[1, max_depth]`), and on the active provider→consumer
chain `X→Y→Z→W` an upstream query from `W` with `max_depth = 2` returns
exactly the nodes `W, Z, Y` and the edges `(W,Z,level=1)`, `(Z,Y,level=2)`. -/
theorem dependency_chain_bfs :
    (∀ (deps : List DepRow) (up : Bool) (md : ℚ) (root : String),
        (chainBFS deps up md root).2.Pairwise (fun a b => edgeKey a ≠ edgeKey b))
      ∧ (∀ (deps : List DepRow) (up : Bool) (md : ℚ) (root : String),
          ∀ e ∈ (chainBFS deps up md root).2, 1 ≤ e.level ∧ ((e.level : ℚ) - 1 < md))
      ∧ chainBFS exDeps true 2 "W"
          = (["W", "Z", "Y"], [⟨"W", "Z", "t", 1, 1⟩, ⟨"Z", "Y", "t", 1, 2⟩]) := by
  refine ⟨?_, ?_, by decide⟩
  · intro deps up md root
    exact chainLoop_pairwise deps up md (2 * deps.length + 1)
      ([root], [], [], [root], [(root, 0)]) (List.Pairwise.nil) (by intro e he; cases he)
  · intro deps up md root
    exact chainLoop_level deps up md (2 * deps.length + 1)
      ([root], [], [], [root], [(root, 0)]) (by intro e he; cases he)

/-- Witness for C5: the level bounds evaluated on the concrete chain. -/
theorem dependency_chain_bfs_witness :
    1 ≤ (1 : ℕ) ∧ ((1 : ℕ) : ℚ) - 1 < 2 :=
  dependency_chain_bfs.2.1 exDeps true 2 "W" ⟨"W", "Z", "t", 1, 1⟩ (by decide)

/-- The traversal always keeps the root among the discovered nodes. -/
lemma chainBFS_root_mem (deps : List DepRow) (up : Bool) (md : ℚ) (root : String) :
    root ∈ (chainBFS deps up md root).1 :=
  chainLoop_nodes_mono deps up md (2 * deps.length + 1)
    ([root], [], [], [root], [(root, 0)]) root (List.mem_singleton_self root)

/-- C9 (amended): the chain endpoint fails with NOT_FOUND exactly when the
inputs pass validation and the root asset id is absent from the assets
table after node resolution; it fails with BAD_REQUEST for an invalid
direction; an out-of-range or missing `max_depth` is clamped into `[1, 12]`
(never rejected), so a valid request never yields BAD_REQUEST whatever
`max_depth` is. -/
theorem chain_endpoint_errors :
    (∀ (assets : List String) (deps : List DepRow) (aid dir : String) (mdp : Option ℚ),
        ((∃ msg, chainEndpoint assets deps aid dir mdp = .notFound msg) ↔
          (jsTrim aid ≠ ""
            ∧ (jsToLower (if dir = "" then "upstream" else dir) = "upstream"
                ∨ jsToLower (if dir = "" then "upstream" else dir) = "downstream")
            ∧ jsTrim aid ∉ assets)))
      ∧ (∀ (assets : List String) (deps : List DepRow) (aid dir : String) (mdp : Option ℚ),
          jsTrim aid ≠ "" →
          ¬(jsToLower (if dir = "" then "upstream" else dir) = "upstream"
              ∨ jsToLower (if dir = "" then "upstream" else dir) = "downstream") →
          ∃ msg, chainEndpoint assets deps aid dir mdp = .badRequest msg)
      ∧ (∀ mdp : Option ℚ, 1 ≤ effMaxDepth mdp ∧ effMaxDepth mdp ≤ 12)
      ∧ (∀ (assets : List String) (deps : List DepRow) (aid dir : String) (mdp : Option ℚ),
          jsTrim aid ≠ "" →
          (jsToLower (if dir = "" then "upstream" else dir) = "upstream"
            ∨ jsToLower (if dir = "" then "upstream" else dir) = "downstream") →
          ∀ msg, chainEndpoint assets deps aid dir mdp ≠ .badRequest msg) := by
  refine ⟨?_, ?_, ?_, ?_⟩
  · intro assets deps aid dir mdp
    unfold chainEndpoint
    dsimp only
    by_cases h1 : jsTrim aid = ""
    · rw [if_pos h1]
      simp [h1]
    · rw [if_neg h1]
      by_cases h2 : jsToLower (if dir = "" then "upstream" else dir) = "upstream"
          ∨ jsToLower (if dir = "" then "upstream" else dir) = "downstream"
      · rw [if_neg (not_not_intro h2)]
        by_cases h3 : jsTrim aid ∈
            (chainBFS (deps.filter (fun d => d.is_active))
              (jsToLower (if dir = "" then "upstream" else dir) = "upstream")
              (effMaxDepth mdp) (jsTrim aid)).1.filter (fun n => n ∈ assets)
        · rw [if_neg (not_not_intro h3)]
          have hass : jsTrim aid ∈ assets := by
            have := List.mem_filter.mp h3
            simpa using this.2
          constructor
          · rintro ⟨msg, hmsg⟩
            cases hmsg
          · rintro ⟨-, -, hno⟩
            exact absurd hass hno
        · rw [if_pos h3]
          constructor
          · rintro ⟨msg, -⟩
            refine ⟨h1, h2, ?_⟩
            intro hass
            apply h3
            rw [List.mem_filter]
            refine ⟨chainBFS_root_mem _ _ _ _, by simpa using hass⟩
          · intro hno
            exact ⟨_, rfl⟩
      · rw [if_pos h2]
        constructor
        · rintro ⟨msg, hmsg⟩
          cases hmsg
        · rintro ⟨-, hdir, -⟩
          exact absurd hdir h2
  · intro assets deps aid dir mdp h1 h2
    unfold chainEndpoint
    dsimp only
    rw [if_neg h1, if_pos h2]
    exact ⟨_, rfl⟩
  · intro mdp
    unfold effMaxDepth
    constructor
    · exact le_max_left 1 _
    · exact max_le (by norm_num) (min_le_left _ _)
  · intro assets deps aid dir mdp h1 h2 msg
    unfold chainEndpoint
    dsimp only
    rw [if_neg h1, if_neg (not_not_intro h2)]
    by_cases h3 : jsTrim aid ∈
        (chainBFS (deps.filter (fun d => d.is_active))
          (jsToLower (if dir = "" then "upstream" else dir) = "upstream")
          (effMaxDepth mdp) (jsTrim aid)).1.filter (fun n => n ∈ assets)
    · rw [if_neg (not_not_intro h3)]
      intro h
      cases h
    · rw [if_pos h3]
      intro h
      cases h

/-- Witness for C9: a missing root id yields NOT_FOUND. -/
theorem chain_endpoint_errors_witness :
    (∃ msg, chainEndpoint [] [] "A" "upstream" none = ChainResult.notFound msg) :=
  (chain_endpoint_errors.1 [] [] "A" "upstream" none).mpr ⟨by decide, by decide, by decide⟩

/-- C9 counterexample: with `max_depth = 99`, far outside `[1, 12]`, a valid
request succeeds instead of failing with BAD_REQUEST, refuting the claim
that an invalid `max_depth` is rejected. -/
theorem chain_endpoint_depth_not_rejected :
    chainEndpoint ["A"] [] "A" "upstream" (some 99) = ChainResult.ok "A" ["A"] [] := by
  decide

/-- One recovery-injection step extends the dedup set by exactly the keys
of the events it inserts. -/
lemma injectStep_seen (T tm : ℤ) (ev : DamageEv) (d : Draw)
    (seen : List (String × ℤ × ℤ)) :
    (injectStep T tm ev d seen).2 = seen ++ (injectStep T tm ev d seen).1.map recKey := by
  unfold injectStep
  dsimp only
  split_ifs <;> simp [recKey]

/-- Every event inserted by one step has a key outside the incoming dedup
set. -/
lemma injectStep_fresh (T tm : ℤ) (ev : DamageEv) (d : Draw)
    (seen : List (String × ℤ × ℤ)) :
    ∀ e ∈ (injectStep T tm ev d seen).1, recKey e ∉ seen := by
  unfold injectStep
  dsimp only
  split_ifs <;> intro e he <;> simp_all [recKey] <;> rcases he with h | h <;> subst h <;>
    simp_all

/-- The at-most-two events inserted by one step have distinct keys. -/
lemma injectStep_pairwise (T tm : ℤ) (ev : DamageEv) (d : Draw)
    (seen : List (String × ℤ × ℤ)) :
    (injectStep T tm ev d seen).1.Pairwise (fun a b => recKey a ≠ recKey b) := by
  unfold injectStep
  dsimp only
  split_ifs <;> simp_all [recKey, Prod.ext_iff] <;> omega

/-- Shape of the events one step inserts for a damage event below 100 %:
same asset, strictly later (clamped) tick, strictly improved performance,
and either the partial-repair or the full-repair form. -/
lemma injectStep_sound (T tm : ℤ) (ev : DamageEv) (d : Draw)
    (seen : List (String × ℤ × ℤ)) (hlt : ev.performance_pct < 100) :
    ∀ e ∈ (injectStep T tm ev d seen).1,
      e.asset_id = ev.asset_id
        ∧ max 0 ev.tick_index < e.tick_index
        ∧ clampZ ev.performance_pct 0 100 < e.performance_pct
        ∧ ((e.event_kind = "REPAIR_PARTIAL"
              ∧ e.performance_pct
                  = max 50 (min 95 (clampZ ev.performance_pct 0 100 + d.dPerf))
              ∧ e.tick_index = min (T - 1) (max 0 ev.tick_index + d.dPart))
            ∨ (e.event_kind = "REPAIR_FULL" ∧ e.performance_pct = 100
              ∧ e.tick_index = min (T - 1) (max 0 ev.tick_index + d.dFull))) := by
  have hc : clampZ ev.performance_pct 0 100 < 100 := by unfold clampZ; omega
  unfold injectStep
  dsimp only
  split_ifs <;> intro e he <;> simp_all <;>
    (rcases he with h | h <;> subst h <;> simp_all <;> omega)

/-- When the partial repair improves performance and lands after the
damage tick, its key is in the dedup set after the step. -/
lemma injectStep_complete_part (T tm : ℤ) (ev : DamageEv) (d : Draw)
    (seen : List (String × ℤ × ℤ)) :
    (clampZ ev.performance_pct 0 100
        < max 50 (min 95 (clampZ ev.performance_pct 0 100 + d.dPerf))
      ∧ max 0 ev.tick_index < min (T - 1) (max 0 ev.tick_index + d.dPart)) →
    (ev.asset_id, min (T - 1) (max 0 ev.tick_index + d.dPart),
        max 50 (min 95 (clampZ ev.performance_pct 0 100 + d.dPerf)))
      ∈ (injectStep T tm ev d seen).2 := by
  intro hcond
  unfold injectStep
  dsimp only
  split_ifs <;> simp_all

/-- When the full repair lands after the damage tick, its key is in the
dedup set after the step. -/
lemma injectStep_complete_full (T tm : ℤ) (ev : DamageEv) (d : Draw)
    (seen : List (String × ℤ × ℤ)) :
    max 0 ev.tick_index < min (T - 1) (max 0 ev.tick_index + d.dFull) →
    (ev.asset_id, min (T - 1) (max 0 ev.tick_index + d.dFull), (100 : ℤ))
      ∈ (injectStep T tm ev d seen).2 := by
  intro hcond
  unfold injectStep
  dsimp only
  split_ifs <;> simp_all

/-- Soundness of the injection loop: every emitted event originates from
one damage event and one draw, with the shape of `injectStep_sound`. -/
lemma injectAux_sound (T tm : ℤ) (draws : ℕ → Draw) :
    ∀ (l : List DamageEv) (i : ℕ) (seen : List (String × ℤ × ℤ)),
      (∀ ev ∈ l, ev.performance_pct < 100) →
      ∀ e ∈ injectAux T tm draws l i seen,
        ∃ j, ∃ hj : j < l.length,
          e.asset_id = (l.get ⟨j, hj⟩).asset_id
            ∧ max 0 (l.get ⟨j, hj⟩).tick_index < e.tick_index
            ∧ clampZ (l.get ⟨j, hj⟩).performance_pct 0 100 < e.performance_pct
            ∧ ((e.event_kind = "REPAIR_PARTIAL"
                  ∧ e.performance_pct = max 50 (min 95
                      (clampZ (l.get ⟨j, hj⟩).performance_pct 0 100 + (draws (i + j)).dPerf))
                  ∧ e.tick_index = min (T - 1)
                      (max 0 (l.get ⟨j, hj⟩).tick_index + (draws (i + j)).dPart))
                ∨ (e.event_kind = "REPAIR_FULL" ∧ e.performance_pct = 100
                  ∧ e.tick_index = min (T - 1)
                      (max 0 (l.get ⟨j, hj⟩).tick_index + (draws (i + j)).dFull))) := by
  intro l
  induction l with
  | nil => intro i seen _ e he; simp [injectAux] at he
  | cons ev rest ih =>
    intro i seen hl e he
    simp only [injectAux] at he
    rcases List.mem_append.mp he with hstep | hrec
    · have hs := injectStep_sound T tm ev (draws i) seen
        (hl ev (List.mem_cons_self ev rest)) e hstep
      exact ⟨0, by simp, by simpa using hs⟩
    · obtain ⟨j, hj, hchar⟩ := ih (i + 1) _
        (fun x hx => hl x (List.mem_cons_of_mem ev hx)) e hrec
      refine ⟨j + 1, by simpa using hj, ?_⟩
      have harith : i + (j + 1) = i + 1 + j := by omega
      rw [harith]
      simpa using hchar

/-- The injection loop emits no key of the incoming dedup set and no key
twice. -/
lemma injectAux_fresh_pairwise (T tm : ℤ) (draws : ℕ → Draw) :
    ∀ (l : List DamageEv) (i : ℕ) (seen : List (String × ℤ × ℤ)),
      (∀ e ∈ injectAux T tm draws l i seen, recKey e ∉ seen)
        ∧ (injectAux T tm draws l i seen).Pairwise (fun a b => recKey a ≠ recKey b) := by
  intro l
  induction l with
  | nil => intro i seen; simp [injectAux]
  | cons ev rest ih =>
    intro i seen
    have hseen := injectStep_seen T tm ev (draws i) seen
    constructor
    · intro e he
      simp only [injectAux] at he
      rcases List.mem_append.mp he with hstep | hrec
      · exact injectStep_fresh T tm ev (draws i) seen e hstep
      · intro hin
        have h2 := (ih (i + 1) (injectStep T tm ev (draws i) seen).2).1 e hrec
        rw [hseen] at h2
        exact h2 (List.mem_append_left _ hin)
    · simp only [injectAux]
      rw [List.pairwise_append]
      refine ⟨injectStep_pairwise T tm ev (draws i) seen,
        (ih (i + 1) _).2, ?_⟩
      intro a ha b hb hab
      have hbfresh := (ih (i + 1) (injectStep T tm ev (draws i) seen).2).1 b hb
      rw [hseen] at hbfresh
      apply hbfresh
      apply List.mem_append_right
      rw [← hab]
      exact List.mem_map_of_mem recKey ha

/-- Completeness of the injection loop: a qualifying partial or full
repair key either was already seen or is the key of some emitted event. -/
lemma injectAux_complete (T tm : ℤ) (draws : ℕ → Draw) :
    ∀ (l : List DamageEv) (i : ℕ) (seen : List (String × ℤ × ℤ)) (j : ℕ)
      (hj : j < l.length),
      ((clampZ (l.get ⟨j, hj⟩).performance_pct 0 100
          < max 50 (min 95 (clampZ (l.get ⟨j, hj⟩).performance_pct 0 100 + (draws (i + j)).dPerf))
        ∧ max 0 (l.get ⟨j, hj⟩).tick_index
            < min (T - 1) (max 0 (l.get ⟨j, hj⟩).tick_index + (draws (i + j)).dPart)) →
        ((l.get ⟨j, hj⟩).asset_id,
            min (T - 1) (max 0 (l.get ⟨j, hj⟩).tick_index + (draws (i + j)).dPart),
            max 50 (min 95 (clampZ (l.get ⟨j, hj⟩).performance_pct 0 100 + (draws (i + j)).dPerf)))
            ∈ seen
          ∨ ∃ e ∈ injectAux T tm draws l i seen,
              recKey e = ((l.get ⟨j, hj⟩).asset_id,
                min (T - 1) (max 0 (l.get ⟨j, hj⟩).tick_index + (draws (i + j)).dPart),
                max 50 (min 95 (clampZ (l.get ⟨j, hj⟩).performance_pct 0 100 + (draws (i + j)).dPerf))))
      ∧ (max 0 (l.get ⟨j, hj⟩).tick_index
            < min (T - 1) (max 0 (l.get ⟨j, hj⟩).tick_index + (draws (i + j)).dFull) →
        ((l.get ⟨j, hj⟩).asset_id,
            min (T - 1) (max 0 (l.get ⟨j, hj⟩).tick_index + (draws (i + j)).dFull), (100 : ℤ))
            ∈ seen
          ∨ ∃ e ∈ injectAux T tm draws l i seen,
              recKey e = ((l.get ⟨j, hj⟩).asset_id,
                min (T - 1) (max 0 (l.get ⟨j, hj⟩).tick_index + (draws (i + j)).dFull), (100 : ℤ))) := by
  intro l
  induction l with
  | nil => intro i seen j hj; simp at hj
  | cons ev rest ih =>
    intro i seen j hj
    have hseen := injectStep_seen T tm ev (draws i) seen
    cases j with
    | zero =>
      constructor
      · intro hcond
        have hk := injectStep_complete_part T tm ev (draws (i + 0)) seen
          (by simpa using hcond)
        rw [show i + 0 = i from rfl] at hk ⊢
        rw [hseen] at hk
        rcases List.mem_append.mp hk with hs | hnew
        · exact Or.inl (by simpa using hs)
        · right
          obtain ⟨e, he, hkey⟩ := List.mem_map.mp hnew
          exact ⟨e, by simp only [injectAux]; exact List.mem_append_left _ he,
            by simpa using hkey⟩
      · intro hcond
        have hk := injectStep_complete_full T tm ev (draws (i + 0)) seen
          (by simpa using hcond)
        rw [show i + 0 = i from rfl] at hk ⊢
        rw [hseen] at hk
        rcases List.mem_append.mp hk with hs | hnew
        · exact Or.inl (by simpa using hs)
        · right
          obtain ⟨e, he, hkey⟩ := List.mem_map.mp hnew
          exact ⟨e, by simp only [injectAux]; exact List.mem_append_left _ he,
            by simpa using hkey⟩
    | succ j2 =>
      have hj2 : j2 < rest.length := by simpa using hj
      have harith : i + (j2 + 1) = i + 1 + j2 := by omega
      have hih := ih (i + 1) (injectStep T tm ev (draws i) seen).2 j2 hj2
      constructor
      · intro hcond
        have hcond2 := hcond
        rw [show ((ev :: rest).get ⟨j2 + 1, hj⟩) = rest.get ⟨j2, hj2⟩ from rfl,
          harith] at hcond2 ⊢
        rcases hih.1 hcond2 with hs | ⟨e, he, hkey⟩
        · rw [hseen] at hs
          rcases List.mem_append.mp hs with hs2 | hnew
          · exact Or.inl hs2
          · right
            obtain ⟨e, he, hkey⟩ := List.mem_map.mp hnew
            exact ⟨e, by simp only [injectAux]; exact List.mem_append_left _ he, hkey⟩
        · exact Or.inr ⟨e, by simp only [injectAux]; exact List.mem_append_right _ he, hkey⟩
      · intro hcond
        have hcond2 := hcond
        rw [show ((ev :: rest).get ⟨j2 + 1, hj⟩) = rest.get ⟨j2, hj2⟩ from rfl,
          harith] at hcond2 ⊢
        rcases hih.2 hcond2 with hs | ⟨e, he, hkey⟩
        · rw [hseen] at hs
          rcases List.mem_append.mp hs with hs2 | hnew
          · exact Or.inl hs2
          · right
            obtain ⟨e, he, hkey⟩ := List.mem_map.mp hnew
            exact ⟨e, by simp only [injectAux]; exact List.mem_append_left _ he, hkey⟩
        · exact Or.inr ⟨e, by simp only [injectAux]; exact List.mem_append_right _ he, hkey⟩

/-- C2: for every damage event (`performance_pct < 100`) at tick `t` and
any draws with the stated delay ranges, recovery injection emits only
same-asset events that improve on the damaged performance and land strictly
after `t` at ticks clamped to `total_ticks - 1`, in the REPAIR_PARTIAL form
`max(50, min(95, damaged + Δ_perf))` or the REPAIR_FULL form `100`
(soundness); a partial repair that improves and lands later, and a full
repair that lands later, are always scheduled up to deduplication
(completeness); and no two emitted events share
`(instance_id, asset_id, tick, performance_pct)`. -/
theorem recovery_injection_spec (T tm : ℤ) (events : List DamageEv) (draws : ℕ → Draw)
    (hd : ∀ i, 2 ≤ (draws i).dPart ∧ (draws i).dPart ≤ 10
      ∧ 8 ≤ (draws i).dFull ∧ (draws i).dFull ≤ 40) :
    (∀ e ∈ injectAutoRecoveries T tm events draws,
      ∃ j, ∃ hj : j < (dmgQuery events).length,
        e.asset_id = ((dmgQuery events).get ⟨j, hj⟩).asset_id
          ∧ max 0 ((dmgQuery events).get ⟨j, hj⟩).tick_index < e.tick_index
          ∧ clampZ ((dmgQuery events).get ⟨j, hj⟩).performance_pct 0 100 < e.performance_pct
          ∧ ((e.event_kind = "REPAIR_PARTIAL"
                ∧ e.performance_pct = max 50 (min 95
                    (clampZ ((dmgQuery events).get ⟨j, hj⟩).performance_pct 0 100
                      + (draws j).dPerf))
                ∧ e.tick_index = min (T - 1)
                    (max 0 ((dmgQuery events).get ⟨j, hj⟩).tick_index + (draws j).dPart))
              ∨ (e.event_kind = "REPAIR_FULL" ∧ e.performance_pct = 100
                ∧ e.tick_index = min (T - 1)
                    (max 0 ((dmgQuery events).get ⟨j, hj⟩).tick_index + (draws j).dFull))))
      ∧ (∀ j, ∀ hj : j < (dmgQuery events).length,
          ((clampZ ((dmgQuery events).get ⟨j, hj⟩).performance_pct 0 100
              < max 50 (min 95 (clampZ ((dmgQuery events).get ⟨j, hj⟩).performance_pct 0 100
                  + (draws j).dPerf))
            ∧ max 0 ((dmgQuery events).get ⟨j, hj⟩).tick_index
                < min (T - 1) (max 0 ((dmgQuery events).get ⟨j, hj⟩).tick_index + (draws j).dPart)) →
            ∃ e ∈ injectAutoRecoveries T tm events draws,
              recKey e = (((dmgQuery events).get ⟨j, hj⟩).asset_id,
                min (T - 1) (max 0 ((dmgQuery events).get ⟨j, hj⟩).tick_index + (draws j).dPart),
                max 50 (min 95 (clampZ ((dmgQuery events).get ⟨j, hj⟩).performance_pct 0 100
                  + (draws j).dPerf))))
          ∧ (max 0 ((dmgQuery events).get ⟨j, hj⟩).tick_index
                < min (T - 1) (max 0 ((dmgQuery events).get ⟨j, hj⟩).tick_index + (draws j).dFull) →
            ∃ e ∈ injectAutoRecoveries T tm events draws,
              recKey e = (((dmgQuery events).get ⟨j, hj⟩).asset_id,
                min (T - 1) (max 0 ((dmgQuery events).get ⟨j, hj⟩).tick_index + (draws j).dFull),
                (100 : ℤ))))
      ∧ (injectAutoRecoveries T tm events draws).Pairwise
          (fun a b => recKey a ≠ recKey b) := by
  have hlt : ∀ ev ∈ dmgQuery events, ev.performance_pct < 100 := by
    intro ev hev
    unfold dmgQuery at hev
    have := (List.Perm.mem_iff (List.perm_insertionSort _ _)).mp hev
    exact of_decide_eq_true (List.mem_filter.mp this).2
  refine ⟨?_, ?_, ?_⟩
  · intro e he
    obtain ⟨j, hj, hchar⟩ := injectAux_sound T tm draws (dmgQuery events) 0 [] hlt e he
    exact ⟨j, hj, by simpa using hchar⟩
  · intro j hj
    have h := injectAux_complete T tm draws (dmgQuery events) 0 [] j hj
    constructor
    · intro hcond
      rcases h.1 (by simpa using hcond) with habs | hex
      · exact absurd habs (List.not_mem_nil _)
      · simpa using hex
    · intro hcond
      rcases h.2 (by simpa using hcond) with habs | hex
      · exact absurd habs (List.not_mem_nil _)
      · simpa using hex
  · exact (injectAux_fresh_pairwise T tm draws (dmgQuery events) 0 []).2

/-- Witness for C2: one damage event at tick 0 with performance 0 under
draws `(2, 8, 30)` schedules a partial repair to 50 % at tick 2. -/
theorem recovery_injection_spec_witness :
    (∀ i, 2 ≤ (exDraws i).dPart ∧ (exDraws i).dPart ≤ 10
      ∧ 8 ≤ (exDraws i).dFull ∧ (exDraws i).dFull ≤ 40)
    ∧ ∃ e ∈ injectAutoRecoveries 50 10 [⟨0, "a", 0⟩] exDraws,
        recKey e = ("a", 2, 50) := by
  refine ⟨fun i => by norm_num [exDraws], ?_⟩
  have h := (recovery_injection_spec 50 10 [⟨0, "a", 0⟩] exDraws (fun i => by norm_num [exDraws])).2.1 0 (by decide)
  have h2 := h.1 (by decide)
  simpa using h2

/-- A cache whose keys are exactly `range t` and whose payloads are tagged
with their key holds a correctly tagged payload for every tick below `t`. -/
lemma cache_lookup_of_range (cache : List (ℕ × TickPayload)) (t : ℕ)
    (hk : cache.map Prod.fst = List.range t)
    (ht : ∀ kp ∈ cache, kp.2.tick_index = kp.1) :
    ∀ u : ℕ, u < t → ∃ p, (u, p) ∈ cache ∧ p.tick_index = u := by
  intro u hu
  have hmem : u ∈ cache.map Prod.fst := by
    rw [hk]
    exact List.mem_range.mpr hu
  obtain ⟨kp, hkp, hfst⟩ := List.mem_map.mp hmem
  refine ⟨kp.2, ?_, ?_⟩
  · rw [show ((u : ℕ), kp.2) = kp from by rw [← hfst]]
    exact hkp
  · rw [ht kp hkp, hfst]

/-- Invariants of the precomputation loop: every published state has
`computed_max_tick ≥ t - 1` and a correctly tagged cached payload for every
tick below `computed_max_tick`, and along the emitted state sequence
`computed_max_tick` never decreases while a `done` state is never followed
by a different `computed_max_tick`. -/
lemma runLoop_invariant (assets : List SimAsset) (events : List SimEvent) :
    ∀ (r t : ℕ) (perf : String → ℤ) (prev : String → Status)
      (cache : List (ℕ × TickPayload)),
      cache.map Prod.fst = List.range t →
      (∀ kp ∈ cache, kp.2.tick_index = kp.1) →
      (∀ s ∈ runLoop assets events r t perf prev cache,
          (t : ℤ) - 1 ≤ s.computed_max_tick
            ∧ ∀ u : ℕ, (u : ℤ) < s.computed_max_tick →
                ∃ p, (u, p) ∈ s.cache ∧ p.tick_index = u)
        ∧ (runLoop assets events r t perf prev cache).Pairwise
            (fun s s2 => s.computed_max_tick ≤ s2.computed_max_tick
              ∧ (s.done = true → s.computed_max_tick = s2.computed_max_tick)) := by
  intro r
  induction r with
  | zero =>
    intro t perf prev cache hk ht
    constructor
    · intro s hs
      simp only [runLoop, List.mem_singleton] at hs
      subst hs
      refine ⟨le_refl _, ?_⟩
      intro u hu
      have hu2 : (u : ℤ) < (t : ℤ) - 1 := hu
      exact cache_lookup_of_range cache t hk ht u (by omega)
    · simp [runLoop]
  | succ n ih =>
    intro t perf prev cache hk ht
    have hk' : (cache ++ [(t, (simStep assets events t perf prev).1)]).map Prod.fst
        = List.range (t + 1) := by
      rw [List.map_append, hk, List.range_succ]
      rfl
    have ht' : ∀ kp ∈ cache ++ [(t, (simStep assets events t perf prev).1)],
        kp.2.tick_index = kp.1 := by
      intro kp hkp
      rcases List.mem_append.mp hkp with h1 | h2
      · exact ht kp h1
      · simp only [List.mem_singleton] at h2
        subst h2
        rfl
    have hih := ih (t + 1) (simStep assets events t perf prev).2.1
      (simStep assets events t perf prev).2.2
      (cache ++ [(t, (simStep assets events t perf prev).1)]) hk' ht'
    constructor
    · intro s hs
      simp only [runLoop] at hs
      rcases List.mem_cons.mp hs with rfl | hsr
      · refine ⟨by push_cast; omega, ?_⟩
        intro u hu
        have hu2 : (u : ℤ) < (t : ℤ) := hu
        exact cache_lookup_of_range _ (t + 1) hk' ht' u (by omega)
      · obtain ⟨h1, h2⟩ := hih.1 s hsr
        exact ⟨by push_cast at h1 ⊢; omega, h2⟩
    · simp only [runLoop]
      rw [List.pairwise_cons]
      refine ⟨?_, hih.2⟩
      intro s hs
      obtain ⟨h1, _⟩ := hih.1 s hs
      constructor
      · push_cast at h1 ⊢
        omega
      · intro hdone
        cases hdone
    
/-- C7: the run starts at `computed_max_tick = -1`; along the
precomputation step sequence `computed_max_tick` is monotonically
non-decreasing and once `done` is true it no longer changes; and in every
published state each tick `t < computed_max_tick` has a cached payload
whose `tick_index` equals `t`. -/
theorem run_cache_invariants (assets : List SimAsset) (events : List SimEvent) (total : ℕ) :
    (runStates assets events total).head? = some ⟨-1, [], false⟩
      ∧ (runStates assets events total).Pairwise
          (fun s s2 => s.computed_max_tick ≤ s2.computed_max_tick
            ∧ (s.done = true → s.computed_max_tick = s2.computed_max_tick))
      ∧ ∀ s ∈ runStates assets events total, ∀ u : ℕ,
          (u : ℤ) < s.computed_max_tick →
          ∃ p, (u, p) ∈ s.cache ∧ p.tick_index = u := by
  have hinv := runLoop_invariant assets events total 0 initPerf initStatus []
    (by simp) (by simp)
  refine ⟨rfl, ?_, ?_⟩
  · unfold runStates
    rw [List.pairwise_cons]
    refine ⟨?_, hinv.2⟩
    intro s hs
    obtain ⟨h1, _⟩ := hinv.1 s hs
    constructor
    · have h2 : ((0 : ℕ) : ℤ) - 1 ≤ s.computed_max_tick := h1
      show (-1 : ℤ) ≤ s.computed_max_tick
      omega
    · intro hdone
      cases hdone
  · intro s hs u hu
    unfold runStates at hs
    rcases List.mem_cons.mp hs with rfl | hsr
    · have h2 : (u : ℤ) < -1 := hu
      omega
    · exact (hinv.1 s hsr).2 u hu

/-- Witness for C7 on a two-tick run with no assets and no events. -/
theorem run_cache_invariants_witness :
    ∃ p, ((0 : ℕ), p)
        ∈ [((0 : ℕ), TickPayload.mk 0 [] [] []), ((1 : ℕ), TickPayload.mk 1 [] [] [])]
      ∧ p.tick_index = 0 :=
  (run_cache_invariants [] [] 2).2.2
    ⟨1, [(0, ⟨0, [], [], []⟩), (1, ⟨1, [], [], []⟩)], false⟩ (by decide) 0 (by decide)

/-- The status thresholds of `perfPctToStatus`. -/
lemma perfPctToStatus_thresholds (p : ℚ) :
    (100 ≤ p → perfPctToStatus p = Status.RECOVERED)
      ∧ (50 ≤ p ∧ p < 100 → perfPctToStatus p = Status.DEGRADED)
      ∧ (p < 50 → perfPctToStatus p = Status.FAILED) := by
  refine ⟨?_, ?_, ?_⟩
  · intro h
    have hc : clamp p 0 100 = 100 := by
      unfold clamp
      rw [min_eq_left h]
      norm_num
    unfold perfPctToStatus
    rw [hc]
    norm_num
  · rintro ⟨h1, h2⟩
    have hc : clamp p 0 100 = p := by
      unfold clamp
      rw [min_eq_right (le_of_lt h2), max_eq_right (by linarith)]
    unfold perfPctToStatus
    rw [hc, if_neg (by linarith), if_pos h1]
  · intro h
    rcases le_or_lt 0 p with h0 | h0
    · have hc : clamp p 0 100 = p := by
        unfold clamp
        rw [min_eq_right (by linarith), max_eq_right h0]
      unfold perfPctToStatus
      rw [hc, if_neg (by linarith), if_neg (by linarith)]
    · have hc : clamp p 0 100 = 0 := by
        unfold clamp
        rw [min_eq_right (by linarith), max_eq_left (by linarith)]
      unfold perfPctToStatus
      rw [hc, if_neg (by norm_num), if_neg (by norm_num)]

/-- Pre-clamping an integer performance value to `[0, 100]` does not change
its derived status (the function clamps internally). -/
lemma perfPctToStatus_clampZ (x : ℤ) :
    perfPctToStatus ((clampZ x 0 100 : ℤ) : ℚ) = perfPctToStatus (x : ℚ) := by
  have harg : clamp ((clampZ x 0 100 : ℤ) : ℚ) 0 100 = clamp (x : ℚ) 0 100 := by
    unfold clamp clampZ
    push_cast
    simp only [min_def, max_def]
    split_ifs <;> first
      | rfl
      | linarith
  unfold perfPctToStatus
  rw [harg]

/-- Characterization of the per-asset tick loop: when asset ids are
distinct, the emitted `assets_changed` entries are exactly the assets whose
current status differs from the recorded previous status (in asset order),
and the updated previous-status map records the current status of every
asset while leaving other ids untouched. -/
lemma tickAssetFold_spec (perf : String → ℤ) :
    ∀ (assets : List SimAsset)
      (acc : List (String × Status) × List (String × ℤ) × (String → Status)),
      (assets.map SimAsset.id).Nodup →
      ((assets.foldl (tickAssetStep perf) acc).1
          = acc.1 ++ (assets.filter
                (fun a => acc.2.2 a.id ≠ statusOfPerf (perf a.id))).map
              (fun a => (a.id, statusOfPerf (perf a.id))))
        ∧ (∀ a ∈ assets,
            (assets.foldl (tickAssetStep perf) acc).2.2 a.id = statusOfPerf (perf a.id))
        ∧ (∀ id, id ∉ assets.map SimAsset.id →
            (assets.foldl (tickAssetStep perf) acc).2.2 id = acc.2.2 id) := by
  intro assets
  induction assets with
  | nil =>
    intro acc _
    refine ⟨by simp, by simp, by simp⟩
  | cons a rest ih =>
    intro acc hnd
    have hnd2 : (rest.map SimAsset.id).Nodup := (List.nodup_cons.mp hnd).2
    have hanotin : a.id ∉ rest.map SimAsset.id := (List.nodup_cons.mp hnd).1
    have hstep : tickAssetStep perf acc a
        = (if acc.2.2 a.id ≠ statusOfPerf (perf a.id)
              then acc.1 ++ [(a.id, statusOfPerf (perf a.id))] else acc.1,
            bumpAssoc acc.2.1 (sectorName a.sector) (clampZ (perf a.id) 0 100 * assetWeight a),
            Function.update acc.2.2 a.id (statusOfPerf (perf a.id))) := by
      unfold tickAssetStep statusOfPerf
      rfl
    have hih := ih (tickAssetStep perf acc a) hnd2
    refine ⟨?_, ?_, ?_⟩
    · rw [List.foldl_cons, hih.1, hstep]
      have hfc : rest.filter
            (fun b => decide ((Function.update acc.2.2 a.id (statusOfPerf (perf a.id))) b.id
              ≠ statusOfPerf (perf b.id)))
          = rest.filter (fun b => decide (acc.2.2 b.id ≠ statusOfPerf (perf b.id))) := by
        apply List.filter_congr
        intro b hb
        have hne : b.id ≠ a.id := by
          intro heq
          exact hanotin (heq ▸ List.mem_map_of_mem SimAsset.id hb)
        rw [Function.update_noteq hne]
      dsimp only
      rw [hfc]
      by_cases hch : acc.2.2 a.id ≠ statusOfPerf (perf a.id)
      · rw [if_pos hch, List.filter_cons_of_pos (by simpa using hch), List.map_cons,
          List.append_assoc]
        rfl
      · rw [if_neg hch, List.filter_cons_of_neg (by simpa using hch)]
    · intro b hb
      rcases List.mem_cons.mp hb with rfl | hbr
      · rw [List.foldl_cons, hih.2.2 b.id (by simpa using hanotin), hstep]
        exact Function.update_same b.id _ acc.2.2
      · rw [List.foldl_cons]
        exact hih.2.1 b hbr
    · intro id hid
      rw [List.foldl_cons, hih.2.2 id (fun h2 => hid (by simpa using Or.inr h2)), hstep]
      have hne : id ≠ a.id := by
        intro heq
        exact hid (by simp [heq])
      exact Function.update_noteq hne _ acc.2.2

/-- The runner's threaded performance map equals the specification-level
`perfAt`. -/
lemma runnerState_perf (assets : List SimAsset) (events : List SimEvent) :
    ∀ t, (runnerState assets events t).2.1 = perfAt events t := by
  intro t
  induction t with
  | zero => rfl
  | succ n ih =>
    have h0 : (runnerState assets events (n + 1)).2.1
        = applyEvents (eventsAt events (n + 1)) (runnerState assets events n).2.1 := rfl
    rw [h0, ih]
    rfl

/-- The status the runner stores for a performance value equals the
specification-level status after the tick. -/
lemma statusOfPerf_eq_statusAt (events : List SimEvent) (t : ℕ) (id : String) :
    statusOfPerf (perfAt events t id) = statusAt events t id := by
  unfold statusOfPerf statusAt
  rw [perfPctToStatus_clampZ]

/-- After tick `t`, the runner's previous-status map records exactly the
specification-level status of each asset. -/
lemma runnerState_prev (assets : List SimAsset) (events : List SimEvent)
    (hnd : (assets.map SimAsset.id).Nodup) :
    ∀ t, ∀ a ∈ assets,
      (runnerState assets events t).2.2 a.id = statusAt events t a.id := by
  intro t a ha
  cases t with
  | zero =>
    have h0 : (runnerState assets events 0).2.2
        = (assets.foldl (tickAssetStep (applyEvents (eventsAt events 0) initPerf))
            ([], [], initStatus)).2.2 := rfl
    rw [h0, (tickAssetFold_spec _ assets _ hnd).2.1 a ha]
    exact statusOfPerf_eq_statusAt events 0 a.id
  | succ n =>
    have hperf : applyEvents (eventsAt events (n + 1)) (runnerState assets events n).2.1
        = perfAt events (n + 1) := by
      rw [runnerState_perf assets events n]
      rfl
    have h0 : (runnerState assets events (n + 1)).2.2
        = (assets.foldl (tickAssetStep
              (applyEvents (eventsAt events (n + 1)) (runnerState assets events n).2.1))
            ([], [], (runnerState assets events n).2.2)).2.2 := rfl
    rw [h0, (tickAssetFold_spec _ assets _ hnd).2.1 a ha, hperf]
    exact statusOfPerf_eq_statusAt events (n + 1) a.id

/-- C6: the runner derives each asset's discrete status from its current
performance as `≥ 100 → RECOVERED`, `[50..99] → DEGRADED`, `< 50 → FAILED`;
all assets start at performance 100 and hence status RECOVERED; and each
tick payload's `assets_changed` lists exactly the assets (with distinct
ids, in asset order) whose status differs from their status after the
previous tick. -/
theorem runner_status_and_changes (assets : List SimAsset) (events : List SimEvent)
    (hnd : (assets.map SimAsset.id).Nodup) :
    (∀ p : ℚ, (100 ≤ p → perfPctToStatus p = Status.RECOVERED)
      ∧ (50 ≤ p ∧ p < 100 → perfPctToStatus p = Status.DEGRADED)
      ∧ (p < 50 → perfPctToStatus p = Status.FAILED))
      ∧ (∀ id, prevStatusAt events 0 id = Status.RECOVERED)
      ∧ (∀ t, (payloadAt assets events t).assets_changed
          = (assets.filter
              (fun a => prevStatusAt events t a.id ≠ statusAt events t a.id)).map
            (fun a => (a.id, statusAt events t a.id))) := by
  refine ⟨perfPctToStatus_thresholds, fun id => rfl, ?_⟩
  intro t
  cases t with
  | zero =>
    have h1 : (payloadAt assets events 0).assets_changed
        = (assets.foldl (tickAssetStep (applyEvents (eventsAt events 0) initPerf))
            ([], [], initStatus)).1 := rfl
    rw [h1, (tickAssetFold_spec _ assets _ hnd).1, List.nil_append]
    have hsc : ∀ a : SimAsset,
        statusOfPerf ((applyEvents (eventsAt events 0) initPerf) a.id)
          = statusAt events 0 a.id := fun a => statusOfPerf_eq_statusAt events 0 a.id
    rw [List.filter_congr (fun a _ => by rw [hsc a])]
    apply List.map_congr_left
    intro a _
    rw [hsc a]
  | succ n =>
    have hperf : applyEvents (eventsAt events (n + 1)) (runnerState assets events n).2.1
        = perfAt events (n + 1) := by
      rw [runnerState_perf assets events n]
      rfl
    have h1 : (payloadAt assets events (n + 1)).assets_changed
        = (assets.foldl (tickAssetStep
              (applyEvents (eventsAt events (n + 1)) (runnerState assets events n).2.1))
            ([], [], (runnerState assets events n).2.2)).1 := rfl
    rw [h1, (tickAssetFold_spec _ assets _ hnd).1, List.nil_append]
    have hsc : ∀ a : SimAsset,
        statusOfPerf ((applyEvents (eventsAt events (n + 1))
            (runnerState assets events n).2.1) a.id)
          = statusAt events (n + 1) a.id := by
      intro a
      rw [hperf]
      exact statusOfPerf_eq_statusAt events (n + 1) a.id
    have hprev : ∀ a ∈ assets,
        (runnerState assets events n).2.2 a.id = prevStatusAt events (n + 1) a.id :=
      fun a ha => runnerState_prev assets events hnd n a ha
    rw [List.filter_congr (fun a ha => by rw [hsc a, hprev a ha])]
    apply List.map_congr_left
    intro a _
    rw [hsc a]

/-- Witness for C6: the single asset dropped to performance 0 at tick 0 is
reported as changed to FAILED. -/
theorem runner_status_and_changes_witness :
    ((100 : ℚ) ≤ 100 → perfPctToStatus 100 = Status.RECOVERED)
      ∧ (payloadAt [⟨"a1", "electricity", 3⟩] [⟨0, "a1", 0⟩] 0).assets_changed
          = [("a1", Status.FAILED)] := by
  constructor
  · exact fun h => ((runner_status_and_changes [] [] (by decide)).1 100).1 h
  · have h := (runner_status_and_changes [⟨"a1", "electricity", 3⟩] [⟨0, "a1", 0⟩]
      (by decide)).2.2 0
    rw [h]
    decide

/-- One rule's insertion loop preserves: every inserted event's asset is
recorded in `usedAssets`, and any relation `R` that holds for events of a
reuse-allowing rule and for events on distinct assets stays pairwise. -/
lemma emitRuleEvents_reuse (rule : PrepRule) (T : ℤ)
    (R : PrepEvent → PrepEvent → Prop)
    (hRne : ∀ e1 e2, e1.asset_id ≠ e2.asset_id → R e1 e2)
    (hRnew : rule.allow_reuse_asset = true →
      ∀ e1 e2, e2.source_rule_id = some rule.rule_id → R e1 e2) :
    ∀ (chosen : List AssetRow) (st : List PrepEvent × ℕ × List String),
      (∀ e ∈ st.1, e.asset_id ∈ st.2.2) →
      st.1.Pairwise R →
      ((∀ e ∈ (emitRuleEvents rule chosen T st).1,
          e.asset_id ∈ (emitRuleEvents rule chosen T st).2.2)
        ∧ (emitRuleEvents rule chosen T st).1.Pairwise R) := by
  intro chosen
  induction chosen with
  | nil => intro st h1 h2; exact ⟨by simpa [emitRuleEvents] using h1,
      by simpa [emitRuleEvents] using h2⟩
  | cons a rest ih =>
    intro st h1 h2
    simp only [emitRuleEvents, List.foldl_cons]
    apply ih
    · rcases st with ⟨evs, cr, us⟩
      by_cases hc : rule.allow_reuse_asset = false ∧ a.id ∈ us
      · intro e he
        simp only [hc, and_self, if_pos] at he ⊢
        exact h1 e he
      · intro e he
        simp only [if_neg hc] at he ⊢
        rcases List.mem_append.mp he with h3 | h3
        · by_cases hin : a.id ∈ us
          · simp only [hin, if_pos]
            exact h1 e h3
          · simp only [hin, if_neg, not_false_iff]
            exact List.mem_append_left _ (h1 e h3)
        · simp only [List.mem_singleton] at h3
          subst h3
          by_cases hin : a.id ∈ us
          · simpa [hin]
          · simp [hin]
    · rcases st with ⟨evs, cr, us⟩
      by_cases hc : rule.allow_reuse_asset = false ∧ a.id ∈ us
      · simpa only [hc, and_self, if_pos] using h2
      · simp only [if_neg hc]
        rw [List.pairwise_append]
        refine ⟨h2, List.pairwise_singleton _ _, ?_⟩
        intro e1 he1 e2 he2
        simp only [List.mem_singleton] at he2
        subst he2
        by_cases hr : rule.allow_reuse_asset = true
        · exact hRnew hr e1 _ rfl
        · have hreuse : rule.allow_reuse_asset = false := by
            cases hb : rule.allow_reuse_asset
            · rfl
            · exact absurd hb hr
          have hnotin : a.id ∉ us := by
            intro hin
            exact hc ⟨hreuse, hin⟩
          apply hRne
          intro heq
          have heq2 : e1.asset_id = a.id := heq
          exact hnotin (heq2 ▸ h1 e1 he1)

/-- The rule loop keeps the inserted events pairwise in the asset-reuse
relation: two events on the same asset exist only when one comes from a
rule with `allow_reuse_asset = true`. -/
lemma buildEvents_reuse_aux (distKm : ℚ → ℚ → ℚ → ℚ → ℚ) (anchors : List Anchor)
    (T : ℤ) (rcs0 : List (PrepRule × List AssetRow)) :
    ∀ (rcs : List (PrepRule × List AssetRow))
      (st : List PrepEvent × ℕ × List String),
      (∀ rc ∈ rcs, rc ∈ rcs0) →
      (∀ e ∈ st.1, e.asset_id ∈ st.2.2) →
      st.1.Pairwise (fun e1 e2 => e1.asset_id = e2.asset_id →
        ∃ rc ∈ rcs0, rc.1.allow_reuse_asset = true
          ∧ (e1.source_rule_id = some rc.1.rule_id
            ∨ e2.source_rule_id = some rc.1.rule_id)) →
      ((rcs.foldl (fun st rc =>
          if rc.2.isEmpty then st
          else emitRuleEvents rc.1 (selectAssetsForRule distKm rc.1 rc.2 anchors) T st)
        st)).1.Pairwise (fun e1 e2 => e1.asset_id = e2.asset_id →
          ∃ rc ∈ rcs0, rc.1.allow_reuse_asset = true
            ∧ (e1.source_rule_id = some rc.1.rule_id
              ∨ e2.source_rule_id = some rc.1.rule_id)) := by
  intro rcs
  induction rcs with
  | nil => intro st _ _ h2; simpa using h2
  | cons rc rest ih =>
    intro st hsub h1 h2
    simp only [List.foldl_cons]
    by_cases he : rc.2.isEmpty
    · simp only [he, if_pos]
      exact ih st (fun x hx => hsub x (List.mem_cons_of_mem rc hx)) h1 h2
    · simp only [he, if_neg, not_false_iff]
      have hstep := emitRuleEvents_reuse rc.1 T _
        (fun e1 e2 hne => fun heq => absurd heq hne)
        (fun hr e1 e2 hsrc => fun _ =>
          ⟨rc, hsub rc (List.mem_cons_self rc rest), hr, Or.inr hsrc⟩)
        (selectAssetsForRule distKm rc.1 rc.2 anchors) st h1 h2
      exact ih _ (fun x hx => hsub x (List.mem_cons_of_mem rc hx)) hstep.1 hstep.2

/-- C8 (amended): among the events inserted by rule expansion, no two
share an `asset_id` unless one of them was contributed by a rule with
`allow_reuse_asset = true`. -/
theorem rule_events_asset_reuse (distKm : ℚ → ℚ → ℚ → ℚ → ℚ)
    (rcs : List (PrepRule × List AssetRow)) (anchors : List Anchor) (T : ℤ) :
    (buildEvents distKm rcs anchors T).1.Pairwise
      (fun e1 e2 => e1.asset_id = e2.asset_id →
        ∃ rc ∈ rcs, rc.1.allow_reuse_asset = true
          ∧ (e1.source_rule_id = some rc.1.rule_id
            ∨ e2.source_rule_id = some rc.1.rule_id)) :=
  buildEvents_reuse_aux distKm anchors T rcs rcs ([], 0, [])
    (fun x hx => hx) (by intro e he; cases he) List.Pairwise.nil

/-- Witness for C8 on the two-rule example instance. -/
theorem rule_events_asset_reuse_witness :
    (buildEvents exDist [(exRule1, [exA]), (exRule2, [exA, exB, exC])] [] 10).1.Pairwise
      (fun e1 e2 => e1.asset_id = e2.asset_id →
        ∃ rc ∈ [(exRule1, [exA]), (exRule2, [exA, exB, exC])],
          rc.1.allow_reuse_asset = true
          ∧ (e1.source_rule_id = some rc.1.rule_id
            ∨ e2.source_rule_id = some rc.1.rule_id)) :=
  rule_events_asset_reuse exDist [(exRule1, [exA]), (exRule2, [exA, exB, exC])] [] 10

/-- C8 counterexample: over the full event table, recovery injection
inserts REPAIR events on the same asset as their damage event, so an
instance with a single no-reuse rule already has three events sharing one
`asset_id`, none contributed by a reuse-allowing rule. -/
theorem event_table_reuse_counterexample :
    ¬ ((prepareEventTable exDist [(exRule1, [exA])] [] 50 10 exDraws).Pairwise
        (fun e1 e2 => e1.asset_id = e2.asset_id →
          ∃ rc ∈ [(exRule1, [exA])], rc.1.allow_reuse_asset = true
            ∧ (e1.source_rule_id = some rc.1.rule_id
              ∨ e2.source_rule_id = some rc.1.rule_id))) := by
  intro h
  have htable : prepareEventTable exDist [(exRule1, [exA])] [] 50 10 exDraws
      = [⟨0, "IMPACT", "a", 0, 0, some "r1"⟩,
         ⟨2, "REPAIR_PARTIAL", "a", 50, 20, none⟩,
         ⟨8, "REPAIR_FULL", "a", 100, 80, none⟩] := by
    simp only [prepareEventTable, buildEvents, emitRuleEvents, selectAssetsForRule,
      pickCount, clampInt, jsTrunc, avgRepairMinutes, pctToTickIndex, exDist, exA,
      exRule1, jsToUpper, jsStrLe, charListLe, List.foldl, List.insertionSort,
      List.orderedInsert, List.foldl_cons, List.foldl_nil, injectAutoRecoveries,
      dmgQuery, injectAux, injectStep, toDamage, recToEvent, exDraws, clampZ, recKey,
      List.filter, List.map]
    norm_num
    decide
  rw [htable] at h
  have h1 := (List.pairwise_cons.mp h).1 ⟨8, "REPAIR_FULL", "a", 100, 80, none⟩ (by simp)
  have h2 := h1 rfl
  rcases h2 with ⟨rc, hmem, hreuse, h3⟩
  simp only [List.mem_singleton] at hmem
  subst hmem
  exact absurd hreuse (by decide)
